import Mathlib

set_option maxHeartbeats 1000000
set_option linter.unusedVariables false

namespace WorkplaceMonitoring

/-! Shallow embedding of the job-orchestration core of the
workplace-monitoring repository: the priority job queue
(backend/orchestration/job_queue.py), the GPU registry
(backend/orchestration/gpu_manager.py), the orchestrator
(backend/orchestration/orchestrator.py), the video chunker
(backend/ingestion/chunker.py), the clip extractor
(backend/worker/video/clip_extractor.py), the frame sampler
(backend/worker/inference/frame_processor.py) and the IoU object
tracker (backend/worker/inference/tracker.py).

Machine integers are modelled as Nat, Python float box coordinates and
IoU values as rationals, fallible code as Option.  Python dictionaries
keyed by increasing integer ids (the GPU map, discovered with ids
0..n-1) are modelled as a count plus functions over Nat; the tracker
dictionary, whose insertion order matters for matching, is modelled as
an association list in insertion order. -/

/-- Embedding of FrameProcessor.should_sample_frame
(backend/worker/inference/frame_processor.py, lines 104-120).
The code computes frame_number % (30 // rate) == 0 where rate is
burst_fps when event_detected and base_fps otherwise.  Python integer
division and modulo raise ZeroDivisionError when the divisor is zero;
the raised exception is modelled as none. -/
def should_sample_frame (base_fps burst_fps frame_number : Nat) (event_detected : Bool) : Option Bool :=
  let rate := if event_detected then burst_fps else base_fps
  if rate = 0 then none
  else
    let divisor := 30 / rate
    if divisor = 0 then none
    else some (frame_number % divisor == 0)

/-- The min_memory_bytes computation of GPUManager.get_available_gpu:
min_memory_gb * 1024 * 1024 * 1024.  The Python value is the float 2.0
in every call of the repository; integral gigabyte counts make the
product exact. -/
def min_memory_bytes (min_memory_gb : Nat) : Nat := min_memory_gb * 1024 * 1024 * 1024

/-- The per-slot filter of GPUManager.get_available_gpu: slots whose
available flag is cleared are skipped, slots with memory_free below
min_memory_bytes are skipped, slots with utilization above 90 are
skipped, and the first remaining slot is returned. -/
def gpu_eligible (available : Nat → Bool) (memory_free utilization : Nat → Nat) (min_memory_gb gpu_id : Nat) : Bool :=
  available gpu_id && !(memory_free gpu_id < min_memory_bytes min_memory_gb) && !(90 < utilization gpu_id)

/-- Scan of the GPU map in insertion order (ids 0..n-1, the order
produced by _discover_gpus), returning the first id satisfying the
predicate; the second argument counts the ids still to visit. -/
def find_gpu_scan (pred : Nat → Bool) : Nat → Nat → Option Nat
  | _, 0 => none
  | gpu_id, remaining + 1 =>
    if pred gpu_id then some gpu_id else find_gpu_scan pred (gpu_id + 1) remaining

/-- Embedding of GPUManager.get_available_gpu
(backend/orchestration/gpu_manager.py, lines 98-125).  update_all_gpus
refreshes memory_free and utilization from the hardware; those
refreshed readings are supplied as the functions memory_free and
utilization.  The available flags are the manager state. -/
def get_available_gpu (n : Nat) (available : Nat → Bool) (memory_free utilization : Nat → Nat) (min_memory_gb : Nat) : Option Nat :=
  find_gpu_scan (gpu_eligible available memory_free utilization min_memory_gb) 0 n

/-- A bounding box [x1, y1, x2, y2] with rational coordinates,
modelling the Python float lists fed to ObjectTracker._calculate_iou. -/
structure Box where
  x1 : ℚ
  y1 : ℚ
  x2 : ℚ
  y2 : ℚ
deriving DecidableEq, Repr

/-- Embedding of ObjectTracker._calculate_iou
(backend/worker/inference/tracker.py, lines 29-62), literally
following the source: intersection corners by max and min, an early
0.0 return when the intersection is empty, and a 0.0 return when the
union is zero. -/
def calculate_iou (bbox1 bbox2 : Box) : ℚ :=
  let x1_i := max bbox1.x1 bbox2.x1
  let y1_i := max bbox1.y1 bbox2.y1
  let x2_i := min bbox1.x2 bbox2.x2
  let y2_i := min bbox1.y2 bbox2.y2
  if x2_i ≤ x1_i ∨ y2_i ≤ y1_i then 0
  else
    let intersection := (x2_i - x1_i) * (y2_i - y1_i)
    let area1 := (bbox1.x2 - bbox1.x1) * (bbox1.y2 - bbox1.y1)
    let area2 := (bbox2.x2 - bbox2.x1) * (bbox2.y2 - bbox2.y1)
    let union := area1 + area2 - intersection
    if union = 0 then 0 else intersection / union

/-- A queue entry as enqueued by JobQueue.enqueue_job: the job id (the
uuid, modelled as a Nat), the priority argument, and the submit
timestamp in milliseconds taken when enqueue_job runs. -/
structure QJob where
  id : Nat
  priority : Nat
  submit_ts : Nat
deriving DecidableEq, Repr

/-- The sorted-set score of JobQueue.enqueue_job (line 66 of
backend/orchestration/job_queue.py):
score = priority * 1000000 + timestamp_ms. -/
def qscore (j : QJob) : Nat := j.priority * 1000000 + j.submit_ts

/-- zadd of a fresh member (uuid job ids never collide) grows the
ordered set by one entry; the list order itself is immaterial because
dequeue always scans for the maximal score. -/
def enqueue_job (queue : List QJob) (j : QJob) : List QJob := queue ++ [j]

/-- The member returned by zrevrange("job_queue", 0, 0): an entry of
maximal score.  Redis breaks score ties by member encoding; the model
prefers the earlier-enqueued entry, and every theorem below only uses
strict score comparisons, which are tie-break independent. -/
def pickMax : List QJob → Option QJob
  | [] => none
  | j :: rest =>
    match pickMax rest with
    | none => some j
    | some m => if qscore j < qscore m then some m else some j

/-- Repeated JobQueue.dequeue_job: pop the maximal-score member with
zrem until the set is empty, listing the dequeued job ids in order.
The fuel argument is instantiated with the queue length, which bounds
the number of pops. -/
def drainAux : Nat → List QJob → List Nat
  | 0, _ => []
  | fuel + 1, queue =>
    match pickMax queue with
    | none => []
    | some m => m.id :: drainAux fuel (queue.erase m)

/-- The complete dequeue order of a queue. -/
def drain (queue : List QJob) : List Nat := drainAux queue.length queue

/-- The chunk loop of VideoChunker.chunk_file
(backend/ingestion/chunker.py, lines 34-117).  Each iteration seeks to
start_frame = chunk_index * frames_per_chunk and reads until
frames_per_chunk frames are written or the source ends, so it writes
min frames_per_chunk (total_frames - start_frame) frames; a chunk with
zero frames is deleted and ends the loop, any other chunk is emitted
as (chunk_index, start_frame, frames).  frames_per_chunk is the Python
int(fps * chunk_duration). -/
def chunk_loop (total_frames frames_per_chunk chunk_index : Nat) : List (Nat × Nat × Nat) :=
  if h : min frames_per_chunk (total_frames - chunk_index * frames_per_chunk) = 0 then []
  else (chunk_index, chunk_index * frames_per_chunk,
        min frames_per_chunk (total_frames - chunk_index * frames_per_chunk)) ::
       chunk_loop total_frames frames_per_chunk (chunk_index + 1)
termination_by total_frames - chunk_index * frames_per_chunk
decreasing_by
  have h1 : frames_per_chunk ≠ 0 ∧ total_frames - chunk_index * frames_per_chunk ≠ 0 := by
    constructor <;> intro hc <;> simp [hc, Nat.min_eq_zero_iff] at h
  have h2 : (chunk_index + 1) * frames_per_chunk = chunk_index * frames_per_chunk + frames_per_chunk := by
    ring
  omega

/-- VideoChunker.chunk_file on an opened video with total_frames
frames, starting at chunk_index 0. -/
def chunk_file (total_frames frames_per_chunk : Nat) : List (Nat × Nat × Nat) :=
  chunk_loop total_frames frames_per_chunk 0

/-- Embedding of VideoChunker.get_chunk_count
(backend/ingestion/chunker.py, lines 119-144) on an opened video:
zero when frames_per_chunk is zero, otherwise the ceiling division
(total_frames + frames_per_chunk - 1) // frames_per_chunk.  The fps
== 0 early return is subsumed: fps = 0 forces frames_per_chunk = 0. -/
def get_chunk_count (total_frames frames_per_chunk : Nat) : Nat :=
  if frames_per_chunk = 0 then 0
  else (total_frames + frames_per_chunk - 1) / frames_per_chunk

/-- The read-write loop of ClipExtractor.extract_clip: starting at
position pos, it attempts the given number of reads; a read succeeds
exactly while the position is below frame_count, and the first failed
read ends the loop.  Returns the frame numbers written. -/
def read_frames_loop (frame_count : Nat) : Nat → Nat → List Nat
  | _, 0 => []
  | pos, remaining + 1 =>
    if pos < frame_count then pos :: read_frames_loop frame_count (pos + 1) remaining else []

/-- Embedding of ClipExtractor.extract_clip
(backend/worker/video/clip_extractor.py, lines 28-101) on an opened
video: clip_start = max(0, start_frame - padding_frames) (Nat
truncated subtraction), clip_end = min(frame_count, end_frame +
padding_frames), the loop runs over range(clip_start, clip_end), and a
zero-frame clip is deleted with a none return while any other clip is
kept; the some value lists the frame numbers the clip contains.
padding_frames is the Python int(fps * padding_seconds). -/
def extract_clip (frame_count start_frame end_frame padding_frames : Nat) : Option (List Nat) :=
  let clip_start := start_frame - padding_frames
  let clip_end := min frame_count (end_frame + padding_frames)
  let frames_written := read_frames_loop frame_count clip_start (clip_end - clip_start)
  if frames_written.length = 0 then none else some frames_written

/-- Job status strings of the orchestrator data model.  The four
values pending, assigned, completed and failed are the ones the
modelled operations write; processing and cancelled belong to the
declared status domain but are never produced by them. -/
inductive JobStatus where
  | pending
  | assigned
  | processing
  | completed
  | failed
  | cancelled
deriving DecidableEq, Repr

/-- Terminal statuses of the job lifecycle. -/
def JobStatus.isTerminal : JobStatus → Bool
  | .completed => true
  | .failed => true
  | .cancelled => true
  | _ => false

/-- The fields of an active_jobs entry that the verified claims
mention: the status string and the nullable gpu_id.  The remaining
fields (camera_id, timestamps, result, error) never influence control
flow of the modelled operations. -/
structure JobRec where
  status : JobStatus
  gpuId : Option Nat
deriving DecidableEq, Repr

/-- Combined state of JobOrchestrator, its GPUManager and its
JobQueue.  GPUs are discovered with ids 0..gpuCount-1, all available;
jobs maps the uuid (modelled as an allocation counter nextUuid) to its
active_jobs entry; queueLen is the cardinality of the Redis sorted
set.  The short-TTL status map is not modelled: no claim reads it. -/
structure OrchState where
  gpuCount : Nat
  available : Nat → Bool
  jobs : Nat → Option JobRec
  nextUuid : Nat
  queueLen : Nat

/-- A freshly constructed orchestrator with n discovered GPUs. -/
def orch_init (n : Nat) : OrchState :=
  { gpuCount := n, available := fun _ => true, jobs := fun _ => none, nextUuid := 0, queueLen := 0 }

/-- GPUManager.mark_gpu_busy: clears the available flag when the id is
in the GPU map. -/
def mark_gpu_busy (s : OrchState) (gpu_id : Nat) : OrchState :=
  if gpu_id < s.gpuCount then
    { s with available := fun g => if g = gpu_id then false else s.available g }
  else s

/-- GPUManager.mark_gpu_available: sets the available flag when the id
is in the GPU map. -/
def mark_gpu_available (s : OrchState) (gpu_id : Nat) : OrchState :=
  if gpu_id < s.gpuCount then
    { s with available := fun g => if g = gpu_id then true else s.available g }
  else s

/-- Embedding of JobOrchestrator.create_job
(backend/orchestration/orchestrator.py, lines 23-66): enqueue_job
allocates a fresh uuid and zadds a new member (queue cardinality grows
by one), then an active_jobs entry with status pending is inserted.
job_metadata is stored in the job payload but never read by any
modelled operation, in particular never consulted for deduplication;
it is modelled as an optional abstract idempotency key. -/
def create_job (s : OrchState) (job_metadata : Option Nat) : Nat × OrchState :=
  let job_id := s.nextUuid
  (job_id,
    { s with
      queueLen := s.queueLen + 1
      nextUuid := s.nextUuid + 1
      jobs := fun k => if k = job_id then some { status := .pending, gpuId := none } else s.jobs k })

/-- Embedding of JobOrchestrator.assign_job_to_gpu
(backend/orchestration/orchestrator.py, lines 68-100): ask the
registry for a GPU with min_memory_gb = 2; on success mark it busy
unconditionally, then, only if the job id is tracked, set gpu_id and
status assigned on the entry.  memory_free and utilization are the
hardware readings taken by the refresh inside get_available_gpu. -/
def assign_job_to_gpu (s : OrchState) (job_id : Nat) (memory_free utilization : Nat → Nat) : Option Nat × OrchState :=
  match get_available_gpu s.gpuCount s.available memory_free utilization 2 with
  | none => (none, s)
  | some gpu_id =>
    let s1 := mark_gpu_busy s gpu_id
    match s1.jobs job_id with
    | some _ =>
      (some gpu_id,
        { s1 with jobs := fun k => if k = job_id then some { status := .assigned, gpuId := some gpu_id } else s1.jobs k })
    | none => (some gpu_id, s1)

/-- Embedding of JobOrchestrator.complete_job
(backend/orchestration/orchestrator.py, lines 102-128): if the job id
is tracked and its entry carries a gpu_id, that GPU is marked
available; the status becomes completed and the gpu_id field is left
as it was.  Untracked ids only touch the status map. -/
def complete_job (s : OrchState) (job_id : Nat) : OrchState :=
  match s.jobs job_id with
  | none => s
  | some j =>
    let s1 := match j.gpuId with
      | some gpu_id => mark_gpu_available s gpu_id
      | none => s
    { s1 with jobs := fun k => if k = job_id then some { status := .completed, gpuId := j.gpuId } else s1.jobs k }

/-- Embedding of JobOrchestrator.fail_job
(backend/orchestration/orchestrator.py, lines 130-155): same GPU
release as complete_job, with status failed; gpu_id is kept. -/
def fail_job (s : OrchState) (job_id : Nat) : OrchState :=
  match s.jobs job_id with
  | none => s
  | some j =>
    let s1 := match j.gpuId with
      | some gpu_id => mark_gpu_available s gpu_id
      | none => s
    { s1 with jobs := fun k => if k = job_id then some { status := .failed, gpuId := j.gpuId } else s1.jobs k }

/-- One orchestrator operation.  create carries the callers
job_metadata; assign carries the hardware readings its GPU refresh
observes. -/
inductive Op where
  | create (job_metadata : Option Nat)
  | assign (job_id : Nat) (memory_free utilization : Nat → Nat)
  | complete (job_id : Nat)
  | fail (job_id : Nat)

/-- Apply one operation to the orchestrator state. -/
def apply_op (s : OrchState) : Op → OrchState
  | .create md => (create_job s md).2
  | .assign job_id mem util => (assign_job_to_gpu s job_id mem util).2
  | .complete job_id => complete_job s job_id
  | .fail job_id => fail_job s job_id

/-- Run a sequence of orchestrator operations. -/
def run_ops (s : OrchState) : List Op → OrchState
  | [] => s
  | op :: rest => run_ops (apply_op s op) rest

/-- An operation is safe in a state when it does not re-complete or
re-fail a job that is already terminal. -/
def op_safe (s : OrchState) : Op → Bool
  | .complete job_id =>
    match s.jobs job_id with
    | some j => !j.status.isTerminal
    | none => true
  | .fail job_id =>
    match s.jobs job_id with
    | some j => !j.status.isTerminal
    | none => true
  | _ => true

/-- A sequence of operations is safe when every step is safe in the
state it runs in. -/
def ops_safe (s : OrchState) : List Op → Bool
  | [] => true
  | op :: rest => op_safe s op && ops_safe (apply_op s op) rest

/-- A job record holds GPU g when it is in a non-terminal
assigned-or-processing state and records g as its gpu_id. -/
def holds_gpu (r : JobRec) (g : Nat) : Prop :=
  (r.status = .assigned ∨ r.status = .processing) ∧ r.gpuId = some g

/-- Inductive invariant of the orchestrator state used for the GPU
mutual-exclusion proof: an available GPU is held by no job, no two
jobs hold the same GPU, recorded gpu_ids point into the GPU map, and
pending jobs record no GPU. -/
def orch_inv (s : OrchState) : Prop :=
  (∀ g, s.available g = true → ∀ k r, s.jobs k = some r → ¬holds_gpu r g) ∧
  (∀ g k1 k2 r1 r2, s.jobs k1 = some r1 → s.jobs k2 = some r2 →
    holds_gpu r1 g → holds_gpu r2 g → k1 = k2) ∧
  (∀ k r g, s.jobs k = some r → r.gpuId = some g → g < s.gpuCount) ∧
  (∀ k r, s.jobs k = some r → r.status = .pending → r.gpuId = none)

/-- One entry of ObjectTracker.tracks, keeping the fields the claims
mention; detection payload keys other than bbox are copied into the
track by the source but never read by it. -/
structure Track where
  bbox : Box
  first_seen : Nat
  last_seen : Nat
  disappeared : Nat
  detection_count : Nat
deriving DecidableEq, Repr

/-- State of an ObjectTracker: max_disappeared and iou_threshold from
the constructor, the tracks dictionary as an association list in
insertion order, and the auto-increment next_id starting at 1. -/
structure TrackerState where
  max_disappeared : Nat
  iou_threshold : ℚ
  tracks : List (Nat × Track)
  next_id : Nat
deriving DecidableEq, Repr

/-- Dictionary lookup on the insertion-ordered track list. -/
def dict_get : List (Nat × Track) → Nat → Option Track
  | [], _ => none
  | (k, v) :: rest, key => if k = key then some v else dict_get rest key

/-- Dictionary assignment: replace the value at an existing key in
place, or append a fresh key at the end, as Python dict assignment
does. -/
def dict_set : List (Nat × Track) → Nat → Track → List (Nat × Track)
  | [], key, v => [(key, v)]
  | (k, w) :: rest, key, v =>
    if k = key then (key, v) :: rest else (k, w) :: dict_set rest key v

/-- One step of the best-match scan in ObjectTracker.update: already
matched tracks are skipped, and a track becomes the new best when its
IoU strictly exceeds the best so far and reaches the threshold.
Because the improvement must be strict and the scan runs in insertion
order, the earliest (lowest) track id wins IoU ties. -/
def best_fold (threshold : ℚ) (dbox : Box) (matched : List Nat) (acc : Option (Nat × Track) × ℚ) (entry : Nat × Track) : Option (Nat × Track) × ℚ :=
  if entry.1 ∈ matched then acc
  else
    let iou := calculate_iou dbox entry.2.bbox
    if acc.2 < iou ∧ threshold ≤ iou then (some entry, iou) else acc

/-- The best-match scan over the whole track dictionary, starting from
best_match_id = None, best_iou = 0.0. -/
def find_best_match (tracks : List (Nat × Track)) (matched : List Nat) (threshold : ℚ) (dbox : Box) : Option (Nat × Track) :=
  (tracks.foldl (best_fold threshold dbox matched) (none, 0)).1

/-- Processing of one detection inside ObjectTracker.update: a best
match updates that track in place (bbox, last_seen, disappeared reset
to 0, detection_count) and records the id as matched; otherwise a new
track is appended under next_id.  Newly created tracks are not added
to the matched set, exactly as in the source.  The third component
lists the track ids handed out, in detection order. -/
def process_detection (frame_number : Nat) (acc : TrackerState × List Nat × List Nat) (dbox : Box) : TrackerState × List Nat × List Nat :=
  let st := acc.1
  let matched := acc.2.1
  let outs := acc.2.2
  match find_best_match st.tracks matched st.iou_threshold dbox with
  | some best =>
    let tr2 : Track :=
      { best.2 with bbox := dbox, last_seen := frame_number, disappeared := 0,
                    detection_count := best.2.detection_count + 1 }
    ({ st with tracks := dict_set st.tracks best.1 tr2 }, best.1 :: matched, outs ++ [best.1])
  | none =>
    let track_id := st.next_id
    ({ st with
        tracks := st.tracks ++ [(track_id,
          { bbox := dbox, first_seen := frame_number, last_seen := frame_number,
            disappeared := 0, detection_count := 1 })],
        next_id := track_id + 1 },
     matched, outs ++ [track_id])

/-- The final loop of ObjectTracker.update (also the whole body when
the detection list is empty, with an empty matched set): every track
not in the matched set gets disappeared incremented and is deleted
when the counter exceeds max_disappeared.  Dictionary order is
preserved. -/
def age_unmatched (max_disappeared : Nat) (matched : List Nat) (tracks : List (Nat × Track)) : List (Nat × Track) :=
  tracks.filterMap (fun entry =>
    if entry.1 ∈ matched then some entry
    else
      let d := entry.2.disappeared + 1
      if max_disappeared < d then none
      else some (entry.1, { entry.2 with disappeared := d }))

/-- Embedding of ObjectTracker.update
(backend/worker/inference/tracker.py, lines 64-146): the empty
detection list only ages every track; otherwise each detection is
processed in order and the unmatched tracks are aged afterwards.
Returns the new state and the assigned track ids. -/
def tracker_update (st : TrackerState) (detections : List Box) (frame_number : Nat) : TrackerState × List Nat :=
  if detections = [] then
    ({ st with tracks := age_unmatched st.max_disappeared [] st.tracks }, [])
  else
    let folded := detections.foldl (process_detection frame_number) (st, [], [])
    ({ folded.1 with tracks := age_unmatched folded.1.max_disappeared folded.2.1 folded.1.tracks },
     folded.2.2)

/-- The matched-track ids of one ObjectTracker.update call. -/
def update_matched (st : TrackerState) (detections : List Box) (frame_number : Nat) : List Nat :=
  if detections = [] then []
  else (detections.foldl (process_detection frame_number) (st, [], [])).2.1

/-- Run a sequence of update calls, each a detection list with its
frame number. -/
def run_calls (st : TrackerState) : List (List Box × Nat) → TrackerState
  | [] => st
  | c :: rest => run_calls (tracker_update st c.1 c.2).1 rest

/-- The given track id goes unmatched on every call of the run. -/
def unmatched_run (t : Nat) : TrackerState → List (List Box × Nat) → Bool
  | _, [] => true
  | st, c :: rest =>
    !(decide (t ∈ update_matched st c.1 c.2)) && unmatched_run t (tracker_update st c.1 c.2).1 rest

/-- Run a sequence of single-detection update calls. -/
def run_single (st : TrackerState) : List (Box × Nat) → TrackerState
  | [] => st
  | c :: rest => run_single (tracker_update st [c.1] c.2).1 rest

/-- The track-id outputs of a sequence of single-detection update
calls. -/
def run_single_outputs (st : TrackerState) : List (Box × Nat) → List (List Nat)
  | [] => []
  | c :: rest => (tracker_update st [c.1] c.2).2 :: run_single_outputs (tracker_update st [c.1] c.2).1 rest

/-- On every call of the run, the single detection matches track t of
the current state (IoU at least the threshold) and no other track
reaches the threshold. -/
def unique_match_run (t : Nat) : TrackerState → List (Box × Nat) → Bool
  | _, [] => true
  | st, c :: rest =>
    (match dict_get st.tracks t with
     | some tr => decide (st.iou_threshold ≤ calculate_iou c.1 tr.bbox)
     | none => false)
    && st.tracks.all (fun entry => entry.1 == t || decide (calculate_iou c.1 entry.2.bbox < st.iou_threshold))
    && unique_match_run t (tracker_update st [c.1] c.2).1 rest

/-- Well-formedness of a tracker state, true of every state reachable
from a fresh ObjectTracker: dictionary keys are distinct and below the
auto-increment counter. -/
def tracker_wf (st : TrackerState) : Prop :=
  (st.tracks.map Prod.fst).Nodup ∧ ∀ entry ∈ st.tracks, entry.1 < st.next_id

instance (st : TrackerState) : Decidable (tracker_wf st) := by
  unfold tracker_wf; infer_instance

lemma find_gpu_scan_some_iff (pred : Nat → Bool) :
    ∀ (remaining start g : Nat),
      find_gpu_scan pred start remaining = some g ↔
        start ≤ g ∧ g < start + remaining ∧ pred g = true ∧
          ∀ j, start ≤ j → j < g → pred j = false := by
  intro remaining
  induction remaining with
  | zero =>
    intro start g
    simp only [find_gpu_scan]
    constructor
    · intro h; cases h
    · rintro ⟨h1, h2, -⟩; omega
  | succ r ih =>
    intro start g
    rw [find_gpu_scan]
    by_cases hp : pred start = true
    · rw [if_pos hp]
      constructor
      · intro he
        cases he
        exact ⟨le_refl _, by omega, hp, fun j h1 h2 => absurd h2 (by omega)⟩
      · rintro ⟨h1, h2, h3, h4⟩
        rcases Nat.eq_or_lt_of_le h1 with he | hlt
        · rw [he]
        · have hfalse := h4 start (le_refl _) hlt
          rw [hfalse] at hp
          cases hp
    · rw [if_neg hp]
      rw [ih (start + 1) g]
      have hps : pred start = false := by
        cases hb : pred start
        · rfl
        · exact absurd hb hp
      constructor
      · rintro ⟨h1, h2, h3, h4⟩
        refine ⟨by omega, by omega, h3, ?_⟩
        intro j hj1 hj2
        rcases Nat.eq_or_lt_of_le hj1 with he | hlt
        · rw [← he]; exact hps
        · exact h4 j (by omega) hj2
      · rintro ⟨h1, h2, h3, h4⟩
        have hg : g ≠ start := by
          intro he; rw [he, hps] at h3; cases h3
        exact ⟨by omega, by omega, h3, fun j hj1 hj2 => h4 j (by omega) hj2⟩

lemma find_gpu_scan_none_iff (pred : Nat → Bool) :
    ∀ (remaining start : Nat),
      find_gpu_scan pred start remaining = none ↔
        ∀ j, start ≤ j → j < start + remaining → pred j = false := by
  intro remaining
  induction remaining with
  | zero =>
    intro start
    simp only [find_gpu_scan]
    constructor
    · intro _ j h1 h2; omega
    · intro _; trivial
  | succ r ih =>
    intro start
    rw [find_gpu_scan]
    by_cases hp : pred start = true
    · rw [if_pos hp]
      constructor
      · intro h; cases h
      · intro h
        have := h start (le_refl _) (by omega)
        rw [this] at hp
        cases hp
    · rw [if_neg hp]
      have hps : pred start = false := by
        cases hb : pred start
        · rfl
        · exact absurd hb hp
      rw [ih (start + 1)]
      constructor
      · intro h j hj1 hj2
        rcases Nat.eq_or_lt_of_le hj1 with he | hlt
        · rw [← he]; exact hps
        · exact h j (by omega) (by omega)
      · intro h j hj1 hj2
        exact h j (by omega) (by omega)

lemma gpu_eligible_true_iff (available : Nat → Bool) (memory_free utilization : Nat → Nat)
    (min_memory_gb j : Nat) :
    gpu_eligible available memory_free utilization min_memory_gb j = true ↔
      available j = true ∧ min_memory_bytes min_memory_gb ≤ memory_free j ∧
        utilization j ≤ 90 := by
  simp [gpu_eligible, Nat.not_lt, and_assoc]

lemma gpu_eligible_false_iff (available : Nat → Bool) (memory_free utilization : Nat → Nat)
    (min_memory_gb j : Nat) :
    gpu_eligible available memory_free utilization min_memory_gb j = false ↔
      ¬(available j = true ∧ min_memory_bytes min_memory_gb ≤ memory_free j ∧
          utilization j ≤ 90) := by
  rw [← gpu_eligible_true_iff available memory_free utilization min_memory_gb j]
  cases h : gpu_eligible available memory_free utilization min_memory_gb j <;> simp

/-- C10: should_sample_frame is total exactly for sampling rates
between 1 and 30.  For a selected rate r (burst_fps when
event_detected, else base_fps) with 1 ≤ r ≤ 30 it returns the
sampling decision frame_number % (30 / r) == 0; for r = 30 it always
returns true; for r > 30 the Python code divides by 30 // r = 0 and
raises ZeroDivisionError, modelled as none. -/
theorem c10_should_sample_frame_totality :
    (∀ (base_fps burst_fps frame_number : Nat) (event_detected : Bool),
      1 ≤ (if event_detected then burst_fps else base_fps) →
      (if event_detected then burst_fps else base_fps) ≤ 30 →
      should_sample_frame base_fps burst_fps frame_number event_detected =
        some (frame_number % (30 / (if event_detected then burst_fps else base_fps)) == 0)) ∧
    (∀ (base_fps burst_fps frame_number : Nat) (event_detected : Bool),
      (if event_detected then burst_fps else base_fps) = 30 →
      should_sample_frame base_fps burst_fps frame_number event_detected = some true) ∧
    (∀ (base_fps burst_fps frame_number : Nat) (event_detected : Bool),
      30 < (if event_detected then burst_fps else base_fps) →
      should_sample_frame base_fps burst_fps frame_number event_detected = none) := by
  refine ⟨?_, ?_, ?_⟩
  · intro base_fps burst_fps frame_number event_detected h1 h30
    have hr : ¬(if event_detected then burst_fps else base_fps) = 0 := by omega
    have hd : ¬(30 / (if event_detected then burst_fps else base_fps)) = 0 :=
      Nat.pos_iff_ne_zero.mp (Nat.div_pos h30 (by omega))
    simp only [should_sample_frame, if_neg hr, if_neg hd]
  · intro base_fps burst_fps frame_number event_detected h30
    simp only [should_sample_frame, h30]
    norm_num
    exact Nat.mod_one frame_number
  · intro base_fps burst_fps frame_number event_detected h30
    have hr : ¬(if event_detected then burst_fps else base_fps) = 0 := by omega
    have hd : 30 / (if event_detected then burst_fps else base_fps) = 0 :=
      Nat.div_eq_of_lt h30
    simp [should_sample_frame, if_neg hr, hd]

/-- Witness for C10: base rate 5 samples frame 6 (6 % (30/5) = 0),
burst rate 30 samples every frame, and a burst rate of 31 raises. -/
theorem c10_should_sample_frame_totality_witness :
    should_sample_frame 5 30 6 false = some true ∧
    should_sample_frame 5 30 7 true = some true ∧
    should_sample_frame 5 31 9 true = none := by
  refine ⟨?_, ?_, ?_⟩
  · exact (c10_should_sample_frame_totality.1 5 30 6 false (by decide) (by decide)).trans (by decide)
  · exact c10_should_sample_frame_totality.2.1 5 30 7 true (by decide)
  · exact c10_should_sample_frame_totality.2.2 5 31 9 true (by decide)

/-- C4 counterexample: a single GPU with the available flag set,
ample free memory and utilization exactly 90 satisfies none of the
slots of the claim (which requires utilization strictly below 90), so
the claim requires a nil return; get_available_gpu nevertheless
returns slot 0, because the code only skips slots with utilization
strictly above 90. -/
theorem c4_counterexample :
    get_available_gpu 1 (fun _ => true) (fun _ => min_memory_bytes 2) (fun _ => 90) 2 = some 0 ∧
    ¬((90 : Nat) < 90) := by
  constructor
  · rfl
  · omega

/-- C4 amended: get_available_gpu returns the id of the first slot in
map order with available flag set, memory_free at least
min_memory_gb * 2^30 bytes, and utilization at most 90 (not strictly
below 90), and returns none exactly when no slot satisfies these
three conditions. -/
theorem c4_get_available_gpu_first_eligible
    (n : Nat) (available : Nat → Bool) (memory_free utilization : Nat → Nat)
    (min_memory_gb : Nat) :
    (∀ g, get_available_gpu n available memory_free utilization min_memory_gb = some g ↔
      g < n ∧
      (available g = true ∧ min_memory_bytes min_memory_gb ≤ memory_free g ∧
        utilization g ≤ 90) ∧
      ∀ j, j < g →
        ¬(available j = true ∧ min_memory_bytes min_memory_gb ≤ memory_free j ∧
            utilization j ≤ 90)) ∧
    (get_available_gpu n available memory_free utilization min_memory_gb = none ↔
      ∀ j, j < n →
        ¬(available j = true ∧ min_memory_bytes min_memory_gb ≤ memory_free j ∧
            utilization j ≤ 90)) := by
  constructor
  · intro g
    rw [get_available_gpu,
      find_gpu_scan_some_iff (gpu_eligible available memory_free utilization min_memory_gb) n 0 g]
    constructor
    · rintro ⟨-, h2, h3, h4⟩
      refine ⟨by omega, (gpu_eligible_true_iff _ _ _ _ _).mp h3, ?_⟩
      intro j hj
      exact (gpu_eligible_false_iff _ _ _ _ _).mp (h4 j (Nat.zero_le _) hj)
    · rintro ⟨h1, h2, h3⟩
      refine ⟨Nat.zero_le _, by omega, (gpu_eligible_true_iff _ _ _ _ _).mpr h2, ?_⟩
      intro j _ hj
      exact (gpu_eligible_false_iff _ _ _ _ _).mpr (h3 j hj)
  · rw [get_available_gpu,
      find_gpu_scan_none_iff (gpu_eligible available memory_free utilization min_memory_gb) n 0]
    constructor
    · intro h j hj
      exact (gpu_eligible_false_iff _ _ _ _ _).mp (h j (Nat.zero_le _) (by omega))
    · intro h j _ hj
      exact (gpu_eligible_false_iff _ _ _ _ _).mpr (h j (by omega))

lemma mark_gpu_busy_jobs (s : OrchState) (g : Nat) : (mark_gpu_busy s g).jobs = s.jobs := by
  unfold mark_gpu_busy; split <;> rfl

lemma mark_gpu_available_jobs (s : OrchState) (g : Nat) : (mark_gpu_available s g).jobs = s.jobs := by
  unfold mark_gpu_available; split <;> rfl

lemma mark_gpu_busy_gpuCount (s : OrchState) (g : Nat) : (mark_gpu_busy s g).gpuCount = s.gpuCount := by
  unfold mark_gpu_busy; split <;> rfl

lemma mark_gpu_available_gpuCount (s : OrchState) (g : Nat) : (mark_gpu_available s g).gpuCount = s.gpuCount := by
  unfold mark_gpu_available; split <;> rfl

lemma complete_job_jobs_self (s : OrchState) (job_id : Nat) (j : JobRec)
    (hj : s.jobs job_id = some j) :
    (complete_job s job_id).jobs job_id = some { status := .completed, gpuId := j.gpuId } := by
  unfold complete_job
  rw [hj]
  simp

lemma fail_job_jobs_self (s : OrchState) (job_id : Nat) (j : JobRec)
    (hj : s.jobs job_id = some j) :
    (fail_job s job_id).jobs job_id = some { status := .failed, gpuId := j.gpuId } := by
  unfold fail_job
  rw [hj]
  simp

/-- The per-operation preservation of the C2 invariant: a job in
status assigned or processing records a GPU id. -/
lemma assigned_has_gpu_step (s : OrchState) (op : Op)
    (h : ∀ k r, s.jobs k = some r → (r.status = .assigned ∨ r.status = .processing) →
      r.gpuId ≠ none) :
    ∀ k r, (apply_op s op).jobs k = some r →
      (r.status = .assigned ∨ r.status = .processing) → r.gpuId ≠ none := by
  cases op with
  | create md =>
    intro k r hk hs
    simp only [apply_op, create_job] at hk
    by_cases hkk : k = s.nextUuid
    · rw [if_pos hkk] at hk
      cases hk
      rcases hs with h1 | h1 <;> exact absurd h1 (by simp)
    · rw [if_neg hkk] at hk
      exact h k r hk hs
  | assign job_id mem util =>
    intro k r hk hs
    simp only [apply_op, assign_job_to_gpu] at hk
    split at hk
    · exact h k r hk hs
    · rename_i g
      split at hk
      · dsimp only at hk
        by_cases hkk : k = job_id
        · rw [if_pos hkk] at hk
          cases hk
          simp
        · rw [if_neg hkk] at hk
          rw [mark_gpu_busy_jobs] at hk
          exact h k r hk hs
      · dsimp only at hk
        rw [mark_gpu_busy_jobs] at hk
        exact h k r hk hs
  | complete job_id =>
    intro k r hk hs
    simp only [apply_op, complete_job] at hk
    split at hk
    · exact h k r hk hs
    · rename_i j hj
      dsimp only at hk
      by_cases hkk : k = job_id
      · rw [if_pos hkk] at hk
        cases hk
        rcases hs with h1 | h1 <;> exact absurd h1 (by simp)
      · rw [if_neg hkk] at hk
        split at hk
        · rw [mark_gpu_available_jobs] at hk
          exact h k r hk hs
        · exact h k r hk hs
  | fail job_id =>
    intro k r hk hs
    simp only [apply_op, fail_job] at hk
    split at hk
    · exact h k r hk hs
    · rename_i j hj
      dsimp only at hk
      by_cases hkk : k = job_id
      · rw [if_pos hkk] at hk
        cases hk
        rcases hs with h1 | h1 <;> exact absurd h1 (by simp)
      · rw [if_neg hkk] at hk
        split at hk
        · rw [mark_gpu_available_jobs] at hk
          exact h k r hk hs
        · exact h k r hk hs

lemma assigned_has_gpu_run (s : OrchState) (ops : List Op)
    (h : ∀ k r, s.jobs k = some r → (r.status = .assigned ∨ r.status = .processing) →
      r.gpuId ≠ none) :
    ∀ k r, (run_ops s ops).jobs k = some r →
      (r.status = .assigned ∨ r.status = .processing) → r.gpuId ≠ none := by
  induction ops generalizing s with
  | nil => exact h
  | cons op rest ih =>
    simp only [run_ops]
    exact ih (apply_op s op) (assigned_has_gpu_step s op h)

/-- C2 counterexample: on a one-GPU orchestrator, create a job,
assign it (the refresh reports ample memory and zero utilization) and
complete it.  The completed (terminal) job still records gpu_id 0,
where the claim demands a null gpu_id for every terminal job. -/
theorem c2_counterexample :
    (run_ops (orch_init 1)
      [Op.create none,
       Op.assign 0 (fun _ => min_memory_bytes 2) (fun _ => 0),
       Op.complete 0]).jobs 0 = some { status := .completed, gpuId := some 0 } ∧
    JobStatus.isTerminal .completed = true ∧ (some 0 : Option Nat) ≠ none := by
  refine ⟨rfl, rfl, by simp⟩

/-- C2 amended: after every sequence of create_job /
assign_job_to_gpu / complete_job / fail_job operations, every job in
status assigned (or processing, which the operations never produce)
records a non-null gpu_id; terminal jobs keep the gpu_id they held
when completed or failed, because complete_job and fail_job release
the GPU flag but never clear the gpu_id field. -/
theorem c2_gpu_id_vs_status :
    (∀ (n : Nat) (ops : List Op) (k : Nat) (r : JobRec),
      (run_ops (orch_init n) ops).jobs k = some r →
      (r.status = .assigned ∨ r.status = .processing) → r.gpuId ≠ none) ∧
    (∀ (s : OrchState) (job_id : Nat) (j : JobRec),
      s.jobs job_id = some j →
      (complete_job s job_id).jobs job_id = some { status := .completed, gpuId := j.gpuId } ∧
      (fail_job s job_id).jobs job_id = some { status := .failed, gpuId := j.gpuId }) := by
  constructor
  · intro n ops
    exact assigned_has_gpu_run (orch_init n) ops (by intro k r hk; cases hk)
  · intro s job_id j hj
    exact ⟨complete_job_jobs_self s job_id j hj, fail_job_jobs_self s job_id j hj⟩

/-- Witness for C2: a freshly assigned job records gpu_id 0, and
completing a concrete assigned job keeps that gpu_id. -/
theorem c2_gpu_id_vs_status_witness :
    ((run_ops (orch_init 1)
        [Op.create none,
         Op.assign 0 (fun _ => min_memory_bytes 2) (fun _ => 0)]).jobs 0 ≠
      some { status := .assigned, gpuId := none }) ∧
    (complete_job
        { gpuCount := 1, available := fun _ => false,
          jobs := fun k => if k = 0 then some { status := .assigned, gpuId := some 0 } else none,
          nextUuid := 1, queueLen := 1 } 0).jobs 0 =
      some { status := .completed, gpuId := some 0 } := by
  constructor
  · intro hc
    have h1 := c2_gpu_id_vs_status.1 1
      [Op.create none, Op.assign 0 (fun _ => min_memory_bytes 2) (fun _ => 0)]
      0 { status := .assigned, gpuId := none } hc (Or.inl rfl)
    exact h1 rfl
  · exact ((c2_gpu_id_vs_status.2
      { gpuCount := 1, available := fun _ => false,
        jobs := fun k => if k = 0 then some { status := .assigned, gpuId := some 0 } else none,
        nextUuid := 1, queueLen := 1 } 0 { status := .assigned, gpuId := some 0 } (by rfl))).1

/-- C3 counterexample: two create_job calls on a fresh orchestrator
with identical job_metadata carrying an idempotency key return the
distinct job ids 0 and 1 and leave two enqueued jobs, where the claim
demands the same job id and an unchanged queue length on the second
call. -/
theorem c3_counterexample :
    (create_job (orch_init 0) (some 7)).1 = 0 ∧
    (create_job (create_job (orch_init 0) (some 7)).2 (some 7)).1 = 1 ∧
    ((create_job (create_job (orch_init 0) (some 7)).2 (some 7)).2).queueLen = 2 := by
  refine ⟨rfl, rfl, rfl⟩

/-- C3 amended: create_job is never idempotent.  Every call, whatever
job_metadata it carries (the code never reads it), allocates a fresh
uuid and enqueues a new member, so a repeated call with the same
idempotency key returns a different job id and grows the queue. -/
theorem c3_create_job_not_idempotent (s : OrchState) (md1 md2 : Option Nat) :
    (create_job s md1).1 ≠ (create_job (create_job s md1).2 md2).1 ∧
    ((create_job (create_job s md1).2 md2).2).queueLen = s.queueLen + 2 := by
  constructor
  · simp only [create_job]
    omega
  · simp only [create_job]

/-- C7 counterexample: for the degenerate box [0,0,0,0] the code
takes the empty-intersection early return (x2_i <= x1_i holds with
equality) and yields IoU(A,A) = 0, where the claim asserts
IoU(A,A) = 1.0 for every box. -/
theorem c7_counterexample :
    calculate_iou { x1 := 0, y1 := 0, x2 := 0, y2 := 0 }
        { x1 := 0, y1 := 0, x2 := 0, y2 := 0 } = 0 ∧
    (0 : ℚ) ≠ 1 := by
  constructor
  · decide
  · norm_num

/-- C7 amended: IoU(A,A) = 1 for every box of positive width and
height (the degenerate boxes of the counterexample are excluded);
IoU is symmetric; IoU of boxes whose closed rectangles have empty
overlap in some axis is 0; and IoU always lies in [0,1]. -/
theorem c7_iou_properties :
    (∀ A : Box, A.x1 < A.x2 → A.y1 < A.y2 → calculate_iou A A = 1) ∧
    (∀ A B : Box, calculate_iou A B = calculate_iou B A) ∧
    (∀ A B : Box,
      (min A.x2 B.x2 ≤ max A.x1 B.x1 ∨ min A.y2 B.y2 ≤ max A.y1 B.y1) →
      calculate_iou A B = 0) ∧
    (∀ A B : Box, 0 ≤ calculate_iou A B ∧ calculate_iou A B ≤ 1) := by
  refine ⟨?_, ?_, ?_, ?_⟩
  · intro A hx hy
    simp only [calculate_iou, max_self, min_self]
    rw [if_neg (by
      rintro (h | h)
      · exact absurd h (not_le.mpr hx)
      · exact absurd h (not_le.mpr hy))]
    have harea : 0 < (A.x2 - A.x1) * (A.y2 - A.y1) :=
      mul_pos (sub_pos.mpr hx) (sub_pos.mpr hy)
    have hsum : (A.x2 - A.x1) * (A.y2 - A.y1) + (A.x2 - A.x1) * (A.y2 - A.y1) -
        (A.x2 - A.x1) * (A.y2 - A.y1) = (A.x2 - A.x1) * (A.y2 - A.y1) := by ring
    rw [hsum, if_neg (ne_of_gt harea)]
    exact div_self (ne_of_gt harea)
  · intro A B
    simp only [calculate_iou]
    rw [max_comm A.x1 B.x1, max_comm A.y1 B.y1, min_comm A.x2 B.x2, min_comm A.y2 B.y2,
      add_comm ((A.x2 - A.x1) * (A.y2 - A.y1)) ((B.x2 - B.x1) * (B.y2 - B.y1))]
  · intro A B h
    simp only [calculate_iou]
    rw [if_pos h]
  · intro A B
    simp only [calculate_iou]
    split_ifs with h1 h2
    · exact ⟨le_refl 0, by norm_num⟩
    · exact ⟨le_refl 0, by norm_num⟩
    · push_neg at h1
      obtain ⟨hx, hy⟩ := h1
      have hxA1 : A.x1 ≤ max A.x1 B.x1 := le_max_left _ _
      have hxB1 : B.x1 ≤ max A.x1 B.x1 := le_max_right _ _
      have hxA2 : min A.x2 B.x2 ≤ A.x2 := min_le_left _ _
      have hxB2 : min A.x2 B.x2 ≤ B.x2 := min_le_right _ _
      have hyA1 : A.y1 ≤ max A.y1 B.y1 := le_max_left _ _
      have hyB1 : B.y1 ≤ max A.y1 B.y1 := le_max_right _ _
      have hyA2 : min A.y2 B.y2 ≤ A.y2 := min_le_left _ _
      have hyB2 : min A.y2 B.y2 ≤ B.y2 := min_le_right _ _
      have hI : 0 < (min A.x2 B.x2 - max A.x1 B.x1) * (min A.y2 B.y2 - max A.y1 B.y1) :=
        mul_pos (sub_pos.mpr hx) (sub_pos.mpr hy)
      have hIleA : (min A.x2 B.x2 - max A.x1 B.x1) * (min A.y2 B.y2 - max A.y1 B.y1) ≤
          (A.x2 - A.x1) * (A.y2 - A.y1) := by
        apply mul_le_mul (by linarith) (by linarith) (by linarith) (by linarith)
      have hIleB : (min A.x2 B.x2 - max A.x1 B.x1) * (min A.y2 B.y2 - max A.y1 B.y1) ≤
          (B.x2 - B.x1) * (B.y2 - B.y1) := by
        apply mul_le_mul (by linarith) (by linarith) (by linarith) (by linarith)
      have hunion_pos : 0 < (A.x2 - A.x1) * (A.y2 - A.y1) + (B.x2 - B.x1) * (B.y2 - B.y1) -
          (min A.x2 B.x2 - max A.x1 B.x1) * (min A.y2 B.y2 - max A.y1 B.y1) := by
        linarith
      constructor
      · exact le_of_lt (div_pos hI hunion_pos)
      · rw [div_le_one hunion_pos]
        linarith

/-- Witness for C7: the unit box has IoU 1 with itself, and two
separated unit boxes have IoU 0. -/
theorem c7_iou_properties_witness :
    calculate_iou { x1 := 0, y1 := 0, x2 := 1, y2 := 1 }
        { x1 := 0, y1 := 0, x2 := 1, y2 := 1 } = 1 ∧
    calculate_iou { x1 := 0, y1 := 0, x2 := 1, y2 := 1 }
        { x1 := 2, y1 := 2, x2 := 3, y2 := 3 } = 0 := by
  constructor
  · exact c7_iou_properties.1 { x1 := 0, y1 := 0, x2 := 1, y2 := 1 }
      (by norm_num) (by norm_num)
  · exact c7_iou_properties.2.2.1 { x1 := 0, y1 := 0, x2 := 1, y2 := 1 }
      { x1 := 2, y1 := 2, x2 := 3, y2 := 3 } (Or.inl (by decide))

lemma read_frames_loop_eq_range (frame_count : Nat) :
    ∀ remaining pos, pos + remaining ≤ frame_count →
      read_frames_loop frame_count pos remaining = List.range' pos remaining := by
  intro remaining
  induction remaining with
  | zero => intro pos h; rfl
  | succ r ih =>
    intro pos h
    rw [read_frames_loop, if_pos (by omega), ih (pos + 1) (by omega), List.range'_succ]

/-- C9: extract_clip on an openable video with frame_count frames,
called with start_frame = end_frame = f (as extract_clips_from_events
does), writes exactly the frames of the interval
[max(0, f - padding_frames), min(frame_count, f + padding_frames))
(max(0, .) is Nat truncated subtraction here) and returns the clip
path; when that interval is empty, zero frames are written, the file
is deleted and the function returns nil. -/
theorem c9_extract_clip_frames (frame_count f padding_frames : Nat) :
    (∀ w, extract_clip frame_count f f padding_frames = some w →
      ∀ k, k ∈ w ↔
        f - padding_frames ≤ k ∧ k < min frame_count (f + padding_frames)) ∧
    (extract_clip frame_count f f padding_frames = none ↔
      min frame_count (f + padding_frames) ≤ f - padding_frames) := by
  by_cases hc : min frame_count (f + padding_frames) ≤ f - padding_frames
  · have hrem : min frame_count (f + padding_frames) - (f - padding_frames) = 0 := by omega
    constructor
    · intro w hw
      simp [extract_clip, hrem, read_frames_loop] at hw
    · constructor
      · intro _; exact hc
      · intro _; simp [extract_clip, hrem, read_frames_loop]
  · push_neg at hc
    have hle : f - padding_frames +
        (min frame_count (f + padding_frames) - (f - padding_frames)) ≤ frame_count := by
      omega
    have hloop := read_frames_loop_eq_range frame_count
      (min frame_count (f + padding_frames) - (f - padding_frames)) (f - padding_frames) hle
    constructor
    · intro w hw
      simp only [extract_clip] at hw
      rw [hloop, if_neg (by simp only [List.length_range']; omega)] at hw
      cases hw
      intro k
      rw [List.mem_range'_1]
      omega
    · simp only [extract_clip]
      rw [hloop, if_neg (by simp only [List.length_range']; omega)]
      constructor
      · intro h; exact absurd h (by simp)
      · intro h; exact absurd h (by omega)

/-- Witness for C9: a 10-frame video with event frame 3 and 5 padding
frames yields the clip frames 0..7, and an event frame past the end
of a 10-frame video with zero padding yields no clip. -/
theorem c9_extract_clip_frames_witness :
    ((5 : Nat) ∈ List.range' 0 8 ↔ 3 - 5 ≤ 5 ∧ 5 < min 10 (3 + 5)) ∧
    extract_clip 10 100 100 0 = none := by
  constructor
  · exact (c9_extract_clip_frames 10 3 5).1 (List.range' 0 8) (by decide) 5
  · exact (c9_extract_clip_frames 10 100 0).2.mpr (by decide)

lemma chunk_count_step (R F : Nat) (hF : 0 < F) (hR : 0 < R) :
    (R + F - 1) / F = (R - F + F - 1) / F + 1 := by
  by_cases h : R ≤ F
  · have e1 : R + F - 1 = (R - 1) + F := by omega
    have h1 : (R + F - 1) / F = 1 := by
      rw [e1, Nat.add_div_right _ hF, Nat.div_eq_of_lt (by omega)]
    have h2 : R - F = 0 := by omega
    rw [h1, h2, Nat.div_eq_of_lt (by omega)]
  · push_neg at h
    have e1 : R + F - 1 = (R - F + F - 1) + F := by omega
    rw [e1, Nat.add_div_right _ hF]

lemma chunk_count_succ (total_frames frames_per_chunk idx : Nat) (hF : 0 < frames_per_chunk)
    (hrem : total_frames - idx * frames_per_chunk ≠ 0) :
    (total_frames - idx * frames_per_chunk + frames_per_chunk - 1) / frames_per_chunk =
      (total_frames - (idx + 1) * frames_per_chunk + frames_per_chunk - 1) /
          frames_per_chunk + 1 := by
  have hm : (idx + 1) * frames_per_chunk = idx * frames_per_chunk + frames_per_chunk :=
    Nat.succ_mul _ _
  have hstep := chunk_count_step (total_frames - idx * frames_per_chunk)
    frames_per_chunk hF (by omega)
  have e : total_frames - (idx + 1) * frames_per_chunk =
      total_frames - idx * frames_per_chunk - frames_per_chunk := by omega
  rw [e]
  exact hstep

lemma chunk_loop_spec (total_frames frames_per_chunk : Nat) (hF : 0 < frames_per_chunk) :
    ∀ fuel idx, total_frames - idx * frames_per_chunk ≤ fuel →
      (chunk_loop total_frames frames_per_chunk idx).map (fun c => c.1) =
        List.range' idx
          ((total_frames - idx * frames_per_chunk + frames_per_chunk - 1) /
            frames_per_chunk) ∧
      ∀ c ∈ chunk_loop total_frames frames_per_chunk idx, c.2.1 = c.1 * frames_per_chunk := by
  intro fuel
  induction fuel with
  | zero =>
    intro idx h
    have hrem : total_frames - idx * frames_per_chunk = 0 := by omega
    rw [chunk_loop, dif_pos (by simp [hrem]), hrem,
      Nat.div_eq_of_lt (by omega : 0 + frames_per_chunk - 1 < frames_per_chunk)]
    exact ⟨rfl, by intro c hc; cases hc⟩
  | succ fuel ih =>
    intro idx h
    by_cases hrem : total_frames - idx * frames_per_chunk = 0
    · rw [chunk_loop, dif_pos (by simp [hrem]), hrem,
        Nat.div_eq_of_lt (by omega : 0 + frames_per_chunk - 1 < frames_per_chunk)]
      exact ⟨rfl, by intro c hc; cases hc⟩
    · have hm : (idx + 1) * frames_per_chunk = idx * frames_per_chunk + frames_per_chunk :=
        Nat.succ_mul _ _
      obtain ⟨ih1, ih2⟩ := ih (idx + 1) (by omega)
      rw [chunk_loop, dif_neg (by simp only [Nat.min_eq_zero_iff]; omega)]
      constructor
      · rw [List.map_cons, ih1, chunk_count_succ total_frames frames_per_chunk idx hF hrem,
          List.range'_succ]
      · intro c hc
        rcases List.mem_cons.mp hc with hc | hc
        · rw [hc]
        · exact ih2 c hc

/-- C6: for an openable video with total_frames T > 0 and
frames_per_chunk F > 0 (F is the Python int(fps * chunk_duration),
positive whenever fps > 0 and that floor is positive), chunk_file
emits exactly ceil(T / F) chunks, their chunk_index values form the
dense range 0..N-1, chunk N starts at frame N * F, and the count
equals get_chunk_count on the same video. -/
theorem c6_chunk_file_count (total_frames frames_per_chunk : Nat)
    (hT : 0 < total_frames) (hF : 0 < frames_per_chunk) :
    (chunk_file total_frames frames_per_chunk).length =
      (total_frames + frames_per_chunk - 1) / frames_per_chunk ∧
    (chunk_file total_frames frames_per_chunk).map (fun c => c.1) =
      List.range (get_chunk_count total_frames frames_per_chunk) ∧
    (∀ c ∈ chunk_file total_frames frames_per_chunk, c.2.1 = c.1 * frames_per_chunk) ∧
    get_chunk_count total_frames frames_per_chunk =
      (chunk_file total_frames frames_per_chunk).length := by
  have hspec := chunk_loop_spec total_frames frames_per_chunk hF total_frames 0 (by omega)
  simp only [Nat.zero_mul, Nat.sub_zero] at hspec
  obtain ⟨hmap, hstart⟩ := hspec
  have hcount : get_chunk_count total_frames frames_per_chunk =
      (total_frames + frames_per_chunk - 1) / frames_per_chunk := by
    simp [get_chunk_count, Nat.pos_iff_ne_zero.mp hF]
  have hlen : (chunk_file total_frames frames_per_chunk).length =
      (total_frames + frames_per_chunk - 1) / frames_per_chunk := by
    have hl := congrArg List.length hmap
    simpa [chunk_file] using hl
  refine ⟨hlen, ?_, ?_, ?_⟩
  · rw [hcount]
    simp only [chunk_file]
    rw [List.range_eq_range']
    exact hmap
  · simp only [chunk_file]
    exact hstart
  · rw [hcount, hlen]

/-- Witness for C6: a 10-frame video with 3 frames per chunk yields 4
chunks, matching get_chunk_count. -/
theorem c6_chunk_file_count_witness :
    (0 : Nat) < 10 ∧ (0 : Nat) < 3 ∧
    (chunk_file 10 3).length = 4 ∧
    get_chunk_count 10 3 = (chunk_file 10 3).length := by
  refine ⟨by decide, by decide, ?_, ?_⟩
  · exact ((c6_chunk_file_count 10 3 (by decide) (by decide)).1).trans (by decide)
  · exact (c6_chunk_file_count 10 3 (by decide) (by decide)).2.2.2

lemma pickMax_eq_none (queue : List QJob) : pickMax queue = none ↔ queue = [] := by
  cases queue with
  | nil => simp [pickMax]
  | cons j rest =>
    rw [pickMax]
    constructor
    · intro h
      split at h
      · cases h
      · split at h <;> cases h
    · intro h; cases h

lemma pickMax_mem : ∀ (queue : List QJob) (m : QJob), pickMax queue = some m → m ∈ queue := by
  intro queue
  induction queue with
  | nil => intro m h; cases h
  | cons j rest ih =>
    intro m h
    rw [pickMax] at h
    split at h
    · cases h
      exact List.mem_cons_self _ _
    · rename_i mr hmr
      split at h
      · cases h
        exact List.mem_cons_of_mem _ (ih _ hmr)
      · cases h
        exact List.mem_cons_self _ _

lemma pickMax_isMax : ∀ (queue : List QJob) (m : QJob), pickMax queue = some m →
    ∀ x ∈ queue, qscore x ≤ qscore m := by
  intro queue
  induction queue with
  | nil => intro m h; cases h
  | cons j rest ih =>
    intro m h x hx
    rw [pickMax] at h
    split at h
    · rename_i hnone
      cases h
      rw [(pickMax_eq_none rest).mp hnone] at hx
      rcases List.mem_cons.mp hx with he | he
      · rw [he]
      · cases he
    · rename_i mr hmr
      split at h
      · rename_i hlt
        cases h
        rcases List.mem_cons.mp hx with he | he
        · rw [he]; exact le_of_lt hlt
        · exact ih m hmr x he
      · rename_i hge
        cases h
        rcases List.mem_cons.mp hx with he | he
        · rw [he]
        · exact le_trans (ih mr hmr x he) (not_lt.mp hge)

lemma drainAux_order : ∀ (fuel : Nat) (queue : List QJob), queue.length ≤ fuel →
    (queue.map QJob.id).Nodup →
    ∀ a ∈ queue, ∀ b ∈ queue, qscore b < qscore a →
      (drainAux fuel queue).indexOf a.id < (drainAux fuel queue).indexOf b.id := by
  intro fuel
  induction fuel with
  | zero =>
    intro queue hlen _ a ha
    have hq : queue = [] := List.length_eq_zero.mp (Nat.le_zero.mp hlen)
    subst hq
    exact absurd ha (List.not_mem_nil a)
  | succ fuel ih =>
    intro queue hlen hnodup a ha b hb hab
    cases hm : pickMax queue with
    | none =>
      rw [(pickMax_eq_none queue).mp hm] at ha
      cases ha
    | some m =>
      have hmemm := pickMax_mem queue m hm
      have hmax := pickMax_isMax queue m hm
      have hinj := List.inj_on_of_nodup_map hnodup
      simp only [drainAux, hm]
      by_cases hma : m = a
      · have hbne : m.id ≠ b.id := by
          intro he
          have hbm : b = m := hinj hb hmemm he.symm
          rw [hma] at hbm
          rw [hbm] at hab
          exact lt_irrefl _ hab
        rw [hma, List.indexOf_cons_self, List.indexOf_cons_ne _ (hma ▸ hbne)]
        omega
      · by_cases hmb : m = b
        · rw [hmb] at hmax
          exact absurd (hmax a ha) (by omega)
        · have hane : m.id ≠ a.id := by
            intro he
            exact hma (hinj hmemm ha he)
          have hbne : m.id ≠ b.id := by
            intro he
            exact hmb (hinj hmemm hb he)
          have hamem : a ∈ queue.erase m :=
            (List.mem_erase_of_ne (fun he => hma he.symm)).mpr ha
          have hbmem : b ∈ queue.erase m :=
            (List.mem_erase_of_ne (fun he => hmb he.symm)).mpr hb
          have hlen2 : (queue.erase m).length ≤ fuel := by
            rw [List.length_erase_of_mem hmemm]
            have := List.length_pos_of_mem hmemm
            omega
          have hnodup2 : ((queue.erase m).map QJob.id).Nodup :=
            List.Nodup.sublist (List.Sublist.map _ (List.erase_sublist _ _)) hnodup
          have hih := ih (queue.erase m) hlen2 hnodup2 a hamem b hbmem hab
          rw [List.indexOf_cons_ne _ hane, List.indexOf_cons_ne _ hbne]
          omega

/-- C1 counterexample: enqueue job 0 at time 0 with priority 0, then
job 1 at time 1 with the same priority 0.  The claim requires job 0
(enqueued earlier, equal priority) to be dequeued first, but the
scores are 0 and 1 and dequeue pops the maximal score, so the dequeue
order is [1, 0]. -/
theorem c1_counterexample :
    drain [{ id := 0, priority := 0, submit_ts := 0 },
           { id := 1, priority := 0, submit_ts := 1 }] = [1, 0] ∧
    (0 : Nat) < 1 ∧ (0 : Nat) ≤ 0 := by
  exact ⟨rfl, by omega, le_refl 0⟩

/-- C1 amended: dequeue order is by strictly descending score =
priority * 10^6 + submit_timestamp_ms (a job with strictly greater
score is dequeued first); consequently, within equal priority the
LATER-submitted job is dequeued first (LIFO within priority, not
FIFO), and an earlier job of higher priority keeps its place only
while the score gap priority * 10^6 exceeds the timestamp gap. -/
theorem c1_dequeue_order_by_score (queue : List QJob)
    (hnodup : (queue.map QJob.id).Nodup) :
    (∀ a ∈ queue, ∀ b ∈ queue, qscore b < qscore a →
      (drain queue).indexOf a.id < (drain queue).indexOf b.id) ∧
    (∀ a ∈ queue, ∀ b ∈ queue, a.priority = b.priority → b.submit_ts < a.submit_ts →
      (drain queue).indexOf a.id < (drain queue).indexOf b.id) := by
  constructor
  · intro a ha b hb h
    exact drainAux_order queue.length queue (le_refl _) hnodup a ha b hb h
  · intro a ha b hb hp ht
    apply drainAux_order queue.length queue (le_refl _) hnodup a ha b hb
    simp only [qscore, hp]
    omega

/-- Witness for C1: in the two-job queue of the counterexample, the
later-enqueued equal-priority job 1 is dequeued strictly before
job 0. -/
theorem c1_dequeue_order_by_score_witness :
    (drain [{ id := 0, priority := 0, submit_ts := 0 },
            { id := 1, priority := 0, submit_ts := 1 }]).indexOf 1 <
    (drain [{ id := 0, priority := 0, submit_ts := 0 },
            { id := 1, priority := 0, submit_ts := 1 }]).indexOf 0 :=
  (c1_dequeue_order_by_score
      [{ id := 0, priority := 0, submit_ts := 0 },
       { id := 1, priority := 0, submit_ts := 1 }] (by decide)).2
    { id := 1, priority := 0, submit_ts := 1 } (by decide)
    { id := 0, priority := 0, submit_ts := 0 } (by decide) rfl (by decide)

lemma get_available_gpu_some (n : Nat) (available : Nat → Bool)
    (memory_free utilization : Nat → Nat) (min_memory_gb g : Nat)
    (h : get_available_gpu n available memory_free utilization min_memory_gb = some g) :
    available g = true ∧ g < n := by
  obtain ⟨-, h2, h3, -⟩ := (find_gpu_scan_some_iff _ n 0 g).mp h
  exact ⟨((gpu_eligible_true_iff available memory_free utilization min_memory_gb g).mp h3).1,
    by omega⟩

lemma mark_gpu_busy_available_self (s : OrchState) (g : Nat) (h : g < s.gpuCount) :
    (mark_gpu_busy s g).available g = false := by
  unfold mark_gpu_busy
  rw [if_pos h]
  simp

lemma mark_gpu_busy_available_other (s : OrchState) (g g2 : Nat) (h : g2 ≠ g) :
    (mark_gpu_busy s g).available g2 = s.available g2 := by
  unfold mark_gpu_busy
  split
  · dsimp only
    rw [if_neg h]
  · rfl

lemma mark_gpu_available_true_cases (s : OrchState) (g g2 : Nat)
    (h : (mark_gpu_available s g).available g2 = true) :
    g2 = g ∨ s.available g2 = true := by
  unfold mark_gpu_available at h
  split at h
  · dsimp only at h
    by_cases he : g2 = g
    · exact Or.inl he
    · rw [if_neg he] at h
      exact Or.inr h
  · exact Or.inr h

lemma orch_inv_init (n : Nat) : orch_inv (orch_init n) := by
  refine ⟨?_, ?_, ?_, ?_⟩
  · intro g hg k r hk
    cases hk
  · intro g k1 k2 r1 r2 h1 h2
    cases h1
  · intro k r g hk
    cases hk
  · intro k r hk
    cases hk

lemma orch_inv_step (s : OrchState) (op : Op) (hinv : orch_inv s)
    (hsafe : op_safe s op = true) : orch_inv (apply_op s op) := by
  obtain ⟨I1, I2, I3, I4⟩ := hinv
  cases op with
  | create md =>
    simp only [orch_inv, apply_op, create_job]
    refine ⟨?_, ?_, ?_, ?_⟩
    · intro g hg k r hk hold
      by_cases hkk : k = s.nextUuid
      · rw [if_pos hkk] at hk
        cases hk
        cases hold.2
      · rw [if_neg hkk] at hk
        exact I1 g hg k r hk hold
    · intro g k1 k2 r1 r2 h1 h2 hold1 hold2
      by_cases hk1 : k1 = s.nextUuid
      · rw [if_pos hk1] at h1
        cases h1
        cases hold1.2
      · by_cases hk2 : k2 = s.nextUuid
        · rw [if_pos hk2] at h2
          cases h2
          cases hold2.2
        · rw [if_neg hk1] at h1
          rw [if_neg hk2] at h2
          exact I2 g k1 k2 r1 r2 h1 h2 hold1 hold2
    · intro k r g hk hg
      by_cases hkk : k = s.nextUuid
      · rw [if_pos hkk] at hk
        cases hk
        cases hg
      · rw [if_neg hkk] at hk
        exact I3 k r g hk hg
    · intro k r hk hpend
      by_cases hkk : k = s.nextUuid
      · rw [if_pos hkk] at hk
        cases hk
        rfl
      · rw [if_neg hkk] at hk
        exact I4 k r hk hpend
  | assign job_id mem util =>
    cases hg : get_available_gpu s.gpuCount s.available mem util 2 with
    | none =>
      simp only [orch_inv, apply_op, assign_job_to_gpu, hg]
      exact ⟨I1, I2, I3, I4⟩
    | some g =>
      obtain ⟨havailg, hglt⟩ := get_available_gpu_some _ _ _ _ _ _ hg
      cases hj0 : (mark_gpu_busy s g).jobs job_id with
      | some j0 =>
        simp only [orch_inv, apply_op, assign_job_to_gpu, hg, hj0]
        refine ⟨?_, ?_, ?_, ?_⟩
        · intro g2 hg2 k r hk hold
          have hne : g2 ≠ g := by
            intro he
            rw [he, mark_gpu_busy_available_self s g hglt] at hg2
            cases hg2
          have havail2 : s.available g2 = true := by
            rw [mark_gpu_busy_available_other s g g2 hne] at hg2
            exact hg2
          by_cases hkk : k = job_id
          · rw [if_pos hkk] at hk
            cases hk
            have := hold.2
            simp only [Option.some.injEq] at this
            exact hne this.symm
          · rw [if_neg hkk, mark_gpu_busy_jobs] at hk
            exact I1 g2 havail2 k r hk hold
        · intro g2 k1 k2 r1 r2 h1 h2 hold1 hold2
          by_cases hk1 : k1 = job_id
          · by_cases hk2 : k2 = job_id
            · rw [hk1, hk2]
            · rw [if_pos hk1] at h1
              cases h1
              rw [if_neg hk2, mark_gpu_busy_jobs] at h2
              have hge : g2 = g := by
                have := hold1.2
                simp only [Option.some.injEq] at this
                exact this.symm
              subst hge
              exact absurd hold2 (I1 g2 havailg k2 r2 h2)
          · by_cases hk2 : k2 = job_id
            · rw [if_pos hk2] at h2
              cases h2
              rw [if_neg hk1, mark_gpu_busy_jobs] at h1
              have hge : g2 = g := by
                have := hold2.2
                simp only [Option.some.injEq] at this
                exact this.symm
              subst hge
              exact absurd hold1 (I1 g2 havailg k1 r1 h1)
            · rw [if_neg hk1, mark_gpu_busy_jobs] at h1
              rw [if_neg hk2, mark_gpu_busy_jobs] at h2
              exact I2 g2 k1 k2 r1 r2 h1 h2 hold1 hold2
        · intro k r g2 hk hg2
          rw [mark_gpu_busy_gpuCount]
          by_cases hkk : k = job_id
          · rw [if_pos hkk] at hk
            cases hk
            simp only [Option.some.injEq] at hg2
            rw [← hg2]
            exact hglt
          · rw [if_neg hkk, mark_gpu_busy_jobs] at hk
            exact I3 k r g2 hk hg2
        · intro k r hk hpend
          by_cases hkk : k = job_id
          · rw [if_pos hkk] at hk
            cases hk
            cases hpend
          · rw [if_neg hkk, mark_gpu_busy_jobs] at hk
            exact I4 k r hk hpend
      | none =>
        simp only [orch_inv, apply_op, assign_job_to_gpu, hg, hj0]
        refine ⟨?_, ?_, ?_, ?_⟩
        · intro g2 hg2 k r hk hold
          have hne : g2 ≠ g := by
            intro he
            rw [he, mark_gpu_busy_available_self s g hglt] at hg2
            cases hg2
          have havail2 : s.available g2 = true := by
            rw [mark_gpu_busy_available_other s g g2 hne] at hg2
            exact hg2
          rw [mark_gpu_busy_jobs] at hk
          exact I1 g2 havail2 k r hk hold
        · intro g2 k1 k2 r1 r2 h1 h2 hold1 hold2
          rw [mark_gpu_busy_jobs] at h1 h2
          exact I2 g2 k1 k2 r1 r2 h1 h2 hold1 hold2
        · intro k r g2 hk hg2
          rw [mark_gpu_busy_gpuCount]
          rw [mark_gpu_busy_jobs] at hk
          exact I3 k r g2 hk hg2
        · intro k r hk hpend
          rw [mark_gpu_busy_jobs] at hk
          exact I4 k r hk hpend
  | complete job_id =>
    cases hj : s.jobs job_id with
    | none =>
      simp only [orch_inv, apply_op, complete_job, hj]
      exact ⟨I1, I2, I3, I4⟩
    | some j =>
      have hterm : j.status.isTerminal = false := by
        simp only [op_safe, hj, Bool.not_eq_true'] at hsafe
        exact hsafe
      cases hjg : j.gpuId with
      | none =>
        simp only [orch_inv, apply_op, complete_job, hj, hjg]
        refine ⟨?_, ?_, ?_, ?_⟩
        · intro g hg k r hk hold
          by_cases hkk : k = job_id
          · rw [if_pos hkk] at hk
            cases hk
            cases hold.2
          · rw [if_neg hkk] at hk
            exact I1 g hg k r hk hold
        · intro g k1 k2 r1 r2 h1 h2 hold1 hold2
          by_cases hk1 : k1 = job_id
          · rw [if_pos hk1] at h1
            cases h1
            cases hold1.2
          · by_cases hk2 : k2 = job_id
            · rw [if_pos hk2] at h2
              cases h2
              cases hold2.2
            · rw [if_neg hk1] at h1
              rw [if_neg hk2] at h2
              exact I2 g k1 k2 r1 r2 h1 h2 hold1 hold2
        · intro k r g hk hg
          by_cases hkk : k = job_id
          · rw [if_pos hkk] at hk
            cases hk
            cases hg
          · rw [if_neg hkk] at hk
            exact I3 k r g hk hg
        · intro k r hk hpend
          by_cases hkk : k = job_id
          · rw [if_pos hkk] at hk
            cases hk
            cases hpend
          · rw [if_neg hkk] at hk
            exact I4 k r hk hpend
      | some g =>
        have hglt : g < s.gpuCount := I3 job_id j g hj hjg
        have hjassigned : j.status = .assigned ∨ j.status = .processing := by
          cases hjs : j.status
          · have := I4 job_id j hj hjs
            rw [this] at hjg
            cases hjg
          · exact Or.inl rfl
          · exact Or.inr rfl
          · rw [hjs] at hterm
            simp [JobStatus.isTerminal] at hterm
          · rw [hjs] at hterm
            simp [JobStatus.isTerminal] at hterm
          · rw [hjs] at hterm
            simp [JobStatus.isTerminal] at hterm
        have hjholds : holds_gpu j g := ⟨hjassigned, hjg⟩
        simp only [orch_inv, apply_op, complete_job, hj, hjg]
        refine ⟨?_, ?_, ?_, ?_⟩
        · intro g2 hg2 k r hk hold
          by_cases hkk : k = job_id
          · rw [if_pos hkk] at hk
            cases hk
            rcases hold.1 with hh | hh <;> cases hh
          · rw [if_neg hkk, mark_gpu_available_jobs] at hk
            rcases mark_gpu_available_true_cases s g g2 hg2 with he | havail2
            · subst he
              exact absurd (I2 g2 k job_id r j hk hj hold hjholds) hkk
            · exact I1 g2 havail2 k r hk hold
        · intro g2 k1 k2 r1 r2 h1 h2 hold1 hold2
          by_cases hk1 : k1 = job_id
          · rw [if_pos hk1] at h1
            cases h1
            rcases hold1.1 with hh | hh <;> cases hh
          · by_cases hk2 : k2 = job_id
            · rw [if_pos hk2] at h2
              cases h2
              rcases hold2.1 with hh | hh <;> cases hh
            · rw [if_neg hk1, mark_gpu_available_jobs] at h1
              rw [if_neg hk2, mark_gpu_available_jobs] at h2
              exact I2 g2 k1 k2 r1 r2 h1 h2 hold1 hold2
        · intro k r g2 hk hg2
          rw [mark_gpu_available_gpuCount]
          by_cases hkk : k = job_id
          · rw [if_pos hkk] at hk
            cases hk
            simp only [Option.some.injEq] at hg2
            rw [← hg2]
            exact hglt
          · rw [if_neg hkk, mark_gpu_available_jobs] at hk
            exact I3 k r g2 hk hg2
        · intro k r hk hpend
          by_cases hkk : k = job_id
          · rw [if_pos hkk] at hk
            cases hk
            cases hpend
          · rw [if_neg hkk, mark_gpu_available_jobs] at hk
            exact I4 k r hk hpend
  | fail job_id =>
    cases hj : s.jobs job_id with
    | none =>
      simp only [orch_inv, apply_op, fail_job, hj]
      exact ⟨I1, I2, I3, I4⟩
    | some j =>
      have hterm : j.status.isTerminal = false := by
        simp only [op_safe, hj, Bool.not_eq_true'] at hsafe
        exact hsafe
      cases hjg : j.gpuId with
      | none =>
        simp only [orch_inv, apply_op, fail_job, hj, hjg]
        refine ⟨?_, ?_, ?_, ?_⟩
        · intro g hg k r hk hold
          by_cases hkk : k = job_id
          · rw [if_pos hkk] at hk
            cases hk
            cases hold.2
          · rw [if_neg hkk] at hk
            exact I1 g hg k r hk hold
        · intro g k1 k2 r1 r2 h1 h2 hold1 hold2
          by_cases hk1 : k1 = job_id
          · rw [if_pos hk1] at h1
            cases h1
            cases hold1.2
          · by_cases hk2 : k2 = job_id
            · rw [if_pos hk2] at h2
              cases h2
              cases hold2.2
            · rw [if_neg hk1] at h1
              rw [if_neg hk2] at h2
              exact I2 g k1 k2 r1 r2 h1 h2 hold1 hold2
        · intro k r g hk hg
          by_cases hkk : k = job_id
          · rw [if_pos hkk] at hk
            cases hk
            cases hg
          · rw [if_neg hkk] at hk
            exact I3 k r g hk hg
        · intro k r hk hpend
          by_cases hkk : k = job_id
          · rw [if_pos hkk] at hk
            cases hk
            cases hpend
          · rw [if_neg hkk] at hk
            exact I4 k r hk hpend
      | some g =>
        have hglt : g < s.gpuCount := I3 job_id j g hj hjg
        have hjassigned : j.status = .assigned ∨ j.status = .processing := by
          cases hjs : j.status
          · have := I4 job_id j hj hjs
            rw [this] at hjg
            cases hjg
          · exact Or.inl rfl
          · exact Or.inr rfl
          · rw [hjs] at hterm
            simp [JobStatus.isTerminal] at hterm
          · rw [hjs] at hterm
            simp [JobStatus.isTerminal] at hterm
          · rw [hjs] at hterm
            simp [JobStatus.isTerminal] at hterm
        have hjholds : holds_gpu j g := ⟨hjassigned, hjg⟩
        simp only [orch_inv, apply_op, fail_job, hj, hjg]
        refine ⟨?_, ?_, ?_, ?_⟩
        · intro g2 hg2 k r hk hold
          by_cases hkk : k = job_id
          · rw [if_pos hkk] at hk
            cases hk
            rcases hold.1 with hh | hh <;> cases hh
          · rw [if_neg hkk, mark_gpu_available_jobs] at hk
            rcases mark_gpu_available_true_cases s g g2 hg2 with he | havail2
            · subst he
              exact absurd (I2 g2 k job_id r j hk hj hold hjholds) hkk
            · exact I1 g2 havail2 k r hk hold
        · intro g2 k1 k2 r1 r2 h1 h2 hold1 hold2
          by_cases hk1 : k1 = job_id
          · rw [if_pos hk1] at h1
            cases h1
            rcases hold1.1 with hh | hh <;> cases hh
          · by_cases hk2 : k2 = job_id
            · rw [if_pos hk2] at h2
              cases h2
              rcases hold2.1 with hh | hh <;> cases hh
            · rw [if_neg hk1, mark_gpu_available_jobs] at h1
              rw [if_neg hk2, mark_gpu_available_jobs] at h2
              exact I2 g2 k1 k2 r1 r2 h1 h2 hold1 hold2
        · intro k r g2 hk hg2
          rw [mark_gpu_available_gpuCount]
          by_cases hkk : k = job_id
          · rw [if_pos hkk] at hk
            cases hk
            simp only [Option.some.injEq] at hg2
            rw [← hg2]
            exact hglt
          · rw [if_neg hkk, mark_gpu_available_jobs] at hk
            exact I3 k r g2 hk hg2
        · intro k r hk hpend
          by_cases hkk : k = job_id
          · rw [if_pos hkk] at hk
            cases hk
            cases hpend
          · rw [if_neg hkk, mark_gpu_available_jobs] at hk
            exact I4 k r hk hpend

lemma orch_inv_run (s : OrchState) (ops : List Op) (hinv : orch_inv s)
    (hsafe : ops_safe s ops = true) : orch_inv (run_ops s ops) := by
  induction ops generalizing s with
  | nil => exact hinv
  | cons op rest ih =>
    simp only [run_ops]
    simp only [ops_safe, Bool.and_eq_true] at hsafe
    exact ih (apply_op s op) (orch_inv_step s op hinv hsafe.1) hsafe.2

/-- C5 counterexample: with one GPU, create job 0, assign it GPU 0,
complete it, create and assign job 1 (GPU 0, freed by the completion),
then call complete_job on the already-completed job 0 AGAIN.  Because
job 0 still records gpu_id 0, the repeated completion marks GPU 0
available while job 1 still holds it, and job 2 is then also assigned
GPU 0: jobs 1 and 2 are both non-terminal assigned with gpu_id 0. -/
theorem c5_counterexample :
    (run_ops (orch_init 1)
      [Op.create none,
       Op.assign 0 (fun _ => min_memory_bytes 2) (fun _ => 0),
       Op.complete 0,
       Op.create none,
       Op.assign 1 (fun _ => min_memory_bytes 2) (fun _ => 0),
       Op.complete 0,
       Op.create none,
       Op.assign 2 (fun _ => min_memory_bytes 2) (fun _ => 0)]).jobs 1 =
        some { status := .assigned, gpuId := some 0 } ∧
    (run_ops (orch_init 1)
      [Op.create none,
       Op.assign 0 (fun _ => min_memory_bytes 2) (fun _ => 0),
       Op.complete 0,
       Op.create none,
       Op.assign 1 (fun _ => min_memory_bytes 2) (fun _ => 0),
       Op.complete 0,
       Op.create none,
       Op.assign 2 (fun _ => min_memory_bytes 2) (fun _ => 0)]).jobs 2 =
        some { status := .assigned, gpuId := some 0 } ∧
    (1 : Nat) ≠ 2 := by
  refine ⟨rfl, rfl, by omega⟩

/-- C5 amended: under sequences of create_job / assign_job_to_gpu /
complete_job / fail_job in which complete_job and fail_job are never
invoked on a job that is already terminal (the counterexample shows
the invariant fails otherwise), no two distinct jobs in a non-terminal
assigned-or-processing state record the same gpu_id. -/
theorem c5_gpu_mutual_exclusion (n : Nat) (ops : List Op)
    (hsafe : ops_safe (orch_init n) ops = true) :
    ∀ (g k1 k2 : Nat) (r1 r2 : JobRec),
      (run_ops (orch_init n) ops).jobs k1 = some r1 →
      (run_ops (orch_init n) ops).jobs k2 = some r2 →
      (r1.status = .assigned ∨ r1.status = .processing) → r1.gpuId = some g →
      (r2.status = .assigned ∨ r2.status = .processing) → r2.gpuId = some g →
      k1 = k2 := by
  intro g k1 k2 r1 r2 h1 h2 hs1 hg1 hs2 hg2
  exact (orch_inv_run (orch_init n) ops (orch_inv_init n) hsafe).2.1 g k1 k2 r1 r2 h1 h2
    ⟨hs1, hg1⟩ ⟨hs2, hg2⟩

/-- Witness for C5: the two-operation safe trace create-then-assign
on one GPU, instantiated at the single assigned job. -/
theorem c5_gpu_mutual_exclusion_witness :
    ops_safe (orch_init 1)
      [Op.create none, Op.assign 0 (fun _ => min_memory_bytes 2) (fun _ => 0)] = true ∧
    (0 : Nat) = 0 := by
  constructor
  · rfl
  · exact c5_gpu_mutual_exclusion 1
      [Op.create none, Op.assign 0 (fun _ => min_memory_bytes 2) (fun _ => 0)]
      (by rfl) 0 0 0
      { status := .assigned, gpuId := some 0 } { status := .assigned, gpuId := some 0 }
      (by rfl) (by rfl) (Or.inl rfl) rfl (Or.inl rfl) rfl

lemma dict_get_set_self (l : List (Nat × Track)) (k : Nat) (v : Track) :
    dict_get (dict_set l k v) k = some v := by
  induction l with
  | nil => simp [dict_set, dict_get]
  | cons e rest ih =>
    rw [dict_set]
    by_cases he : e.1 = k
    · rw [if_pos he]
      simp [dict_get]
    · rw [if_neg he]
      rw [dict_get, if_neg he]
      exact ih

lemma dict_get_set_ne (l : List (Nat × Track)) (k : Nat) (v : Track) (k2 : Nat)
    (h : k2 ≠ k) : dict_get (dict_set l k v) k2 = dict_get l k2 := by
  induction l with
  | nil =>
    simp only [dict_set, dict_get]
    rw [if_neg (by omega)]
  | cons e rest ih =>
    rw [dict_set]
    by_cases he : e.1 = k
    · rw [if_pos he]
      rw [dict_get, dict_get, if_neg (by omega : ¬(k = k2)), if_neg (by omega : ¬(e.1 = k2))]
    · rw [if_neg he]
      rw [dict_get, dict_get]
      by_cases he2 : e.1 = k2
      · rw [if_pos he2, if_pos he2]
      · rw [if_neg he2, if_neg he2]
        exact ih

lemma dict_get_append_ne (l : List (Nat × Track)) (k : Nat) (v : Track) (k2 : Nat)
    (h : k2 ≠ k) : dict_get (l ++ [(k, v)]) k2 = dict_get l k2 := by
  induction l with
  | nil =>
    simp only [List.nil_append, dict_get]
    rw [if_neg (by omega)]
  | cons e rest ih =>
    rw [List.cons_append, dict_get, dict_get]
    by_cases he : e.1 = k2
    · rw [if_pos he, if_pos he]
    · rw [if_neg he, if_neg he]
      exact ih

lemma dict_get_eq_none_iff (l : List (Nat × Track)) (k : Nat) :
    dict_get l k = none ↔ k ∉ l.map Prod.fst := by
  induction l with
  | nil => simp [dict_get]
  | cons e rest ih =>
    rw [dict_get]
    by_cases he : e.1 = k
    · rw [if_pos he]
      simp [he]
    · rw [if_neg he]
      rw [ih]
      constructor
      · intro hk
        simp only [List.map_cons, List.mem_cons]
        rintro (hh | hh)
        · exact he hh.symm
        · exact hk hh
      · intro hk hc
        exact hk (by simp only [List.map_cons, List.mem_cons]; exact Or.inr hc)

lemma dict_get_some_mem_keys (l : List (Nat × Track)) (k : Nat) (v : Track)
    (h : dict_get l k = some v) : k ∈ l.map Prod.fst := by
  by_contra hc
  rw [← dict_get_eq_none_iff] at hc
  rw [hc] at h
  cases h

lemma dict_set_keys_of_mem (l : List (Nat × Track)) (k : Nat) (v : Track)
    (h : k ∈ l.map Prod.fst) : (dict_set l k v).map Prod.fst = l.map Prod.fst := by
  induction l with
  | nil => cases h
  | cons e rest ih =>
    rw [dict_set]
    by_cases he : e.1 = k
    · rw [if_pos he]
      simp [he]
    · rw [if_neg he]
      rw [List.map_cons] at h
      rcases List.mem_cons.mp h with hh | hh
      · exact absurd hh.symm he
      · simp only [List.map_cons]
        rw [ih hh]

lemma dict_set_keys_of_not_mem (l : List (Nat × Track)) (k : Nat) (v : Track)
    (h : k ∉ l.map Prod.fst) :
    (dict_set l k v).map Prod.fst = l.map Prod.fst ++ [k] := by
  induction l with
  | nil => simp [dict_set]
  | cons e rest ih =>
    rw [dict_set]
    by_cases he : e.1 = k
    · exact absurd (by simp [he]) h
    · rw [if_neg he]
      simp only [List.map_cons, List.cons_append]
      rw [ih (by intro hc; exact h (by simp [hc]))]

lemma age_unmatched_cons_matched (max_disappeared : Nat) (matched : List Nat)
    (e : Nat × Track) (rest : List (Nat × Track)) (h : e.1 ∈ matched) :
    age_unmatched max_disappeared matched (e :: rest) =
      e :: age_unmatched max_disappeared matched rest := by
  simp only [age_unmatched, List.filterMap_cons, if_pos h]

lemma age_unmatched_cons_dropped (max_disappeared : Nat) (matched : List Nat)
    (e : Nat × Track) (rest : List (Nat × Track)) (h1 : e.1 ∉ matched)
    (h2 : max_disappeared < e.2.disappeared + 1) :
    age_unmatched max_disappeared matched (e :: rest) =
      age_unmatched max_disappeared matched rest := by
  simp only [age_unmatched, List.filterMap_cons, if_neg h1, if_pos h2]

lemma age_unmatched_cons_aged (max_disappeared : Nat) (matched : List Nat)
    (e : Nat × Track) (rest : List (Nat × Track)) (h1 : e.1 ∉ matched)
    (h2 : ¬max_disappeared < e.2.disappeared + 1) :
    age_unmatched max_disappeared matched (e :: rest) =
      (e.1, { e.2 with disappeared := e.2.disappeared + 1 }) ::
        age_unmatched max_disappeared matched rest := by
  simp only [age_unmatched, List.filterMap_cons, if_neg h1, if_neg h2]

lemma age_unmatched_keys_subset (max_disappeared : Nat) (matched : List Nat) :
    ∀ (l : List (Nat × Track)) (k : Nat),
      k ∈ (age_unmatched max_disappeared matched l).map Prod.fst →
      k ∈ l.map Prod.fst := by
  intro l
  induction l with
  | nil => intro k h; simp [age_unmatched] at h
  | cons e rest ih =>
    intro k h
    by_cases h1 : e.1 ∈ matched
    · rw [age_unmatched_cons_matched _ _ _ _ h1, List.map_cons] at h
      rcases List.mem_cons.mp h with hh | hh
      · simp [hh]
      · simp only [List.map_cons, List.mem_cons]
        exact Or.inr (ih k hh)
    · by_cases h2 : max_disappeared < e.2.disappeared + 1
      · rw [age_unmatched_cons_dropped _ _ _ _ h1 h2] at h
        simp only [List.map_cons, List.mem_cons]
        exact Or.inr (ih k h)
      · rw [age_unmatched_cons_aged _ _ _ _ h1 h2, List.map_cons] at h
        rcases List.mem_cons.mp h with hh | hh
        · simp [hh]
        · simp only [List.map_cons, List.mem_cons]
          exact Or.inr (ih k hh)

lemma age_unmatched_keys_nodup (max_disappeared : Nat) (matched : List Nat) :
    ∀ (l : List (Nat × Track)), (l.map Prod.fst).Nodup →
      ((age_unmatched max_disappeared matched l).map Prod.fst).Nodup := by
  intro l
  induction l with
  | nil => intro _; simp [age_unmatched]
  | cons e rest ih =>
    intro hnodup
    rw [List.map_cons, List.nodup_cons] at hnodup
    by_cases h1 : e.1 ∈ matched
    · rw [age_unmatched_cons_matched _ _ _ _ h1, List.map_cons, List.nodup_cons]
      exact ⟨fun hc => hnodup.1 (age_unmatched_keys_subset _ _ _ _ hc), ih hnodup.2⟩
    · by_cases h2 : max_disappeared < e.2.disappeared + 1
      · rw [age_unmatched_cons_dropped _ _ _ _ h1 h2]
        exact ih hnodup.2
      · rw [age_unmatched_cons_aged _ _ _ _ h1 h2, List.map_cons, List.nodup_cons]
        exact ⟨fun hc => hnodup.1 (age_unmatched_keys_subset _ _ _ _ hc), ih hnodup.2⟩

lemma dict_get_age (max_disappeared : Nat) (matched : List Nat) :
    ∀ (l : List (Nat × Track)) (t : Nat), (l.map Prod.fst).Nodup →
      dict_get (age_unmatched max_disappeared matched l) t =
        if t ∈ matched then dict_get l t
        else
          match dict_get l t with
          | none => none
          | some tr =>
            if max_disappeared < tr.disappeared + 1 then none
            else some { tr with disappeared := tr.disappeared + 1 } := by
  intro l
  induction l with
  | nil =>
    intro t _
    simp only [age_unmatched, List.filterMap_nil, dict_get]
    split <;> rfl
  | cons e rest ih =>
    intro t hnodup
    rw [List.map_cons, List.nodup_cons] at hnodup
    by_cases het : e.1 = t
    · have hget : dict_get (e :: rest) t = some e.2 := by rw [dict_get, if_pos het]
      have hrest_none : dict_get rest t = none := by
        rw [dict_get_eq_none_iff]
        rw [het] at hnodup
        exact hnodup.1
      by_cases h1 : e.1 ∈ matched
      · rw [age_unmatched_cons_matched _ _ _ _ h1, dict_get, if_pos het, hget,
          if_pos (het ▸ h1)]
      · by_cases h2 : max_disappeared < e.2.disappeared + 1
        · rw [age_unmatched_cons_dropped _ _ _ _ h1 h2]
          have : dict_get (age_unmatched max_disappeared matched rest) t = none := by
            rw [dict_get_eq_none_iff]
            intro hc
            rw [dict_get_eq_none_iff] at hrest_none
            exact hrest_none (age_unmatched_keys_subset _ _ _ _ hc)
          rw [this, if_neg (het ▸ h1), hget]
          simp only [if_pos h2]
        · rw [age_unmatched_cons_aged _ _ _ _ h1 h2, dict_get, if_pos het,
            if_neg (het ▸ h1), hget]
          simp only [if_neg h2]
    · have hget : dict_get (e :: rest) t = dict_get rest t := by rw [dict_get, if_neg het]
      rw [hget]
      by_cases h1 : e.1 ∈ matched
      · rw [age_unmatched_cons_matched _ _ _ _ h1, dict_get, if_neg het]
        exact ih t hnodup.2
      · by_cases h2 : max_disappeared < e.2.disappeared + 1
        · rw [age_unmatched_cons_dropped _ _ _ _ h1 h2]
          exact ih t hnodup.2
        · rw [age_unmatched_cons_aged _ _ _ _ h1 h2, dict_get, if_neg het]
          exact ih t hnodup.2

lemma best_fold_skip (θ : ℚ) (d : Box) (matched : List Nat) :
    ∀ (entries : List (Nat × Track)) (acc : Option (Nat × Track) × ℚ),
      (∀ e ∈ entries, calculate_iou d e.2.bbox < θ) →
      entries.foldl (best_fold θ d matched) acc = acc := by
  intro entries
  induction entries with
  | nil => intro acc _; rfl
  | cons e rest ih =>
    intro acc hlt
    rw [List.foldl_cons]
    have hstep : best_fold θ d matched acc e = acc := by
      unfold best_fold
      by_cases hm : e.1 ∈ matched
      · rw [if_pos hm]
      · rw [if_neg hm, if_neg]
        rintro ⟨-, hge⟩
        exact absurd hge (not_le.mpr (hlt e (List.mem_cons_self _ _)))
    rw [hstep]
    exact ih acc (fun x hx => hlt x (List.mem_cons_of_mem _ hx))

lemma find_best_match_unique (θ : ℚ) (d : Box) (matched : List Nat) (hθ : 0 < θ) :
    ∀ (tracks : List (Nat × Track)) (t : Nat) (tr : Track),
      (tracks.map Prod.fst).Nodup →
      dict_get tracks t = some tr →
      θ ≤ calculate_iou d tr.bbox →
      (∀ e ∈ tracks, e.1 ≠ t → calculate_iou d e.2.bbox < θ) →
      t ∉ matched →
      find_best_match tracks matched θ d = some (t, tr) := by
  intro tracks
  induction tracks with
  | nil => intro t tr _ hget; cases hget
  | cons e rest ih =>
    intro t tr hnodup hget hiou hothers htm
    rw [List.map_cons, List.nodup_cons] at hnodup
    by_cases het : e.1 = t
    · have he2 : e.2 = tr := by
        rw [dict_get, if_pos het] at hget
        exact Option.some.inj hget
      have hetr : e = (t, tr) := by
        rw [← het, ← he2]
      unfold find_best_match
      rw [List.foldl_cons]
      have hstep : best_fold θ d matched (none, 0) e = (some e, calculate_iou d e.2.bbox) := by
        unfold best_fold
        rw [if_neg (fun hc => htm (het ▸ hc))]
        rw [if_pos ⟨by rw [he2]; exact lt_of_lt_of_le hθ hiou, by rw [he2]; exact hiou⟩]
      rw [hstep]
      rw [best_fold_skip θ d matched rest _ (fun x hx => by
        refine hothers x (List.mem_cons_of_mem _ hx) ?_
        intro hxt
        exact hnodup.1 (het ▸ hxt ▸ List.mem_map_of_mem Prod.fst hx))]
      rw [hetr]
    · have hget2 : dict_get rest t = some tr := by
        rw [dict_get, if_neg het] at hget
        exact hget
      unfold find_best_match
      rw [List.foldl_cons]
      have hstep : best_fold θ d matched (none, 0) e = (none, 0) := by
        unfold best_fold
        by_cases hm : e.1 ∈ matched
        · rw [if_pos hm]
        · rw [if_neg hm, if_neg]
          rintro ⟨-, hge⟩
          exact absurd hge (not_le.mpr (hothers e (List.mem_cons_self _ _) het))
      rw [hstep]
      exact ih t tr hnodup.2 hget2 hiou
        (fun x hx hxt => hothers x (List.mem_cons_of_mem _ hx) hxt) htm

lemma foldl_best_some (θ : ℚ) (d : Box) (matched : List Nat) :
    ∀ (entries : List (Nat × Track)) (acc : Option (Nat × Track) × ℚ) (p : Nat × Track),
      (entries.foldl (best_fold θ d matched) acc).1 = some p →
      acc.1 = some p ∨ (p ∈ entries ∧ p.1 ∉ matched) := by
  intro entries
  induction entries with
  | nil => intro acc p h; exact Or.inl h
  | cons e rest ih =>
    intro acc p h
    rw [List.foldl_cons] at h
    rcases ih (best_fold θ d matched acc e) p h with hacc | hmem
    · unfold best_fold at hacc
      by_cases hm : e.1 ∈ matched
      · rw [if_pos hm] at hacc
        exact Or.inl hacc
      · rw [if_neg hm] at hacc
        by_cases hcond : acc.2 < calculate_iou d e.2.bbox ∧ θ ≤ calculate_iou d e.2.bbox
        · rw [if_pos hcond] at hacc
          have hep : e = p := Option.some.inj hacc
          exact Or.inr ⟨hep ▸ List.mem_cons_self e rest, hep ▸ hm⟩
        · rw [if_neg hcond] at hacc
          exact Or.inl hacc
    · exact Or.inr ⟨List.mem_cons_of_mem _ hmem.1, hmem.2⟩

lemma find_best_match_mem (tracks : List (Nat × Track)) (matched : List Nat) (θ : ℚ)
    (d : Box) (p : Nat × Track) (h : find_best_match tracks matched θ d = some p) :
    p ∈ tracks ∧ p.1 ∉ matched := by
  rcases foldl_best_some θ d matched tracks (none, 0) p h with hc | hc
  · cases hc
  · exact hc

lemma process_detection_spec (frame : Nat) (st : TrackerState) (matched outs : List Nat)
    (d : Box) (hwf : tracker_wf st) :
    tracker_wf (process_detection frame (st, matched, outs) d).1 ∧
    st.next_id ≤ (process_detection frame (st, matched, outs) d).1.next_id ∧
    (process_detection frame (st, matched, outs) d).1.max_disappeared = st.max_disappeared ∧
    (process_detection frame (st, matched, outs) d).1.iou_threshold = st.iou_threshold ∧
    (∀ x ∈ matched, x ∈ (process_detection frame (st, matched, outs) d).2.1) ∧
    (∀ t, t ∉ (process_detection frame (st, matched, outs) d).2.1 → t < st.next_id →
      dict_get (process_detection frame (st, matched, outs) d).1.tracks t =
        dict_get st.tracks t) ∧
    (∀ k, k ∈ (process_detection frame (st, matched, outs) d).1.tracks.map Prod.fst →
      k ∈ st.tracks.map Prod.fst ∨ st.next_id ≤ k) ∧
    (∀ x ∈ (process_detection frame (st, matched, outs) d).2.1,
      x ∈ matched ∨ x ∈ st.tracks.map Prod.fst ∨ st.next_id ≤ x) := by
  obtain ⟨hnodup, hbound⟩ := hwf
  have hboundk : ∀ k ∈ st.tracks.map Prod.fst, k < st.next_id := by
    intro k hk
    obtain ⟨e, he, hek⟩ := List.mem_map.mp hk
    exact hek ▸ hbound e he
  cases hb : find_best_match st.tracks matched st.iou_threshold d with
  | some best =>
    obtain ⟨hmem, hnm⟩ := find_best_match_mem _ _ _ _ _ hb
    have hkey : best.1 ∈ st.tracks.map Prod.fst := List.mem_map_of_mem Prod.fst hmem
    simp only [process_detection, hb]
    refine ⟨⟨?_, ?_⟩, le_refl _, by trivial, by trivial, ?_, ?_, ?_, ?_⟩
    · rw [dict_set_keys_of_mem _ _ _ hkey]
      exact hnodup
    · intro entry he
      have hk : entry.1 ∈ st.tracks.map Prod.fst := by
        have := List.mem_map_of_mem Prod.fst he
        rwa [dict_set_keys_of_mem _ _ _ hkey] at this
      exact hboundk entry.1 hk
    · intro x hx
      exact List.mem_cons_of_mem _ hx
    · intro t ht hlt
      have hne : t ≠ best.1 := fun he => ht (he ▸ List.mem_cons_self _ _)
      exact dict_get_set_ne _ _ _ _ hne
    · intro k hk
      rw [dict_set_keys_of_mem _ _ _ hkey] at hk
      exact Or.inl hk
    · intro x hx
      rcases List.mem_cons.mp hx with hh | hh
      · exact Or.inr (Or.inl (hh ▸ hkey))
      · exact Or.inl hh
  | none =>
    simp only [process_detection, hb]
    refine ⟨⟨?_, ?_⟩, by omega, by trivial, by trivial, fun x hx => hx, ?_, ?_,
      fun x hx => Or.inl hx⟩
    · rw [List.map_append]
      rw [List.nodup_append]
      refine ⟨hnodup, List.nodup_singleton _, ?_⟩
      intro a ha hb2
      simp only [List.map_cons, List.map_nil, List.mem_singleton] at hb2
      have := hboundk a ha
      omega
    · intro entry he
      rcases List.mem_append.mp he with hh | hh
      · exact Nat.lt_succ_of_lt (hbound entry hh)
      · rw [List.mem_singleton.mp hh]
        simp
    · intro t ht hlt
      exact dict_get_append_ne _ _ _ _ (by omega)
    · intro k hk
      rw [List.map_append] at hk
      rcases List.mem_append.mp hk with hh | hh
      · exact Or.inl hh
      · simp only [List.map_cons, List.map_nil, List.mem_singleton] at hh
        omega

lemma process_fold_spec (frame : Nat) :
    ∀ (dets : List Box) (st : TrackerState) (matched outs : List Nat),
      tracker_wf st →
      tracker_wf (dets.foldl (process_detection frame) (st, matched, outs)).1 ∧
      st.next_id ≤ (dets.foldl (process_detection frame) (st, matched, outs)).1.next_id ∧
      (dets.foldl (process_detection frame) (st, matched, outs)).1.max_disappeared =
        st.max_disappeared ∧
      (dets.foldl (process_detection frame) (st, matched, outs)).1.iou_threshold =
        st.iou_threshold ∧
      (∀ x ∈ matched, x ∈ (dets.foldl (process_detection frame) (st, matched, outs)).2.1) ∧
      (∀ t, t ∉ (dets.foldl (process_detection frame) (st, matched, outs)).2.1 →
        t < st.next_id →
        dict_get (dets.foldl (process_detection frame) (st, matched, outs)).1.tracks t =
          dict_get st.tracks t) ∧
      (∀ k, k ∈ (dets.foldl (process_detection frame) (st, matched, outs)).1.tracks.map Prod.fst →
        k ∈ st.tracks.map Prod.fst ∨ st.next_id ≤ k) ∧
      (∀ x ∈ (dets.foldl (process_detection frame) (st, matched, outs)).2.1,
        x ∈ matched ∨ x ∈ st.tracks.map Prod.fst ∨ st.next_id ≤ x) := by
  intro dets
  induction dets with
  | nil =>
    intro st matched outs hwf
    exact ⟨hwf, le_refl _, rfl, rfl, fun x hx => hx, fun t _ _ => rfl,
      fun k hk => Or.inl hk, fun x hx => Or.inl hx⟩
  | cons d rest ih =>
    intro st matched outs hwf
    rw [List.foldl_cons,
      show (process_detection frame (st, matched, outs) d) =
        ((process_detection frame (st, matched, outs) d).1,
         (process_detection frame (st, matched, outs) d).2.1,
         (process_detection frame (st, matched, outs) d).2.2) from rfl]
    obtain ⟨hwf1, hn1, hm1, hi1, hmono1, hget1, hkeys1, hmm1⟩ :=
      process_detection_spec frame st matched outs d hwf
    obtain ⟨hwf2, hn2, hm2, hi2, hmono2, hget2, hkeys2, hmm2⟩ :=
      ih (process_detection frame (st, matched, outs) d).1
        (process_detection frame (st, matched, outs) d).2.1
        (process_detection frame (st, matched, outs) d).2.2 hwf1
    refine ⟨hwf2, by omega, by rw [hm2, hm1], by rw [hi2, hi1], ?_, ?_, ?_, ?_⟩
    · intro x hx
      exact hmono2 x (hmono1 x hx)
    · intro t ht hlt
      have htp : t ∉ (process_detection frame (st, matched, outs) d).2.1 :=
        fun hc => ht (hmono2 t hc)
      rw [hget2 t ht (by omega), hget1 t htp hlt]
    · intro k hk
      rcases hkeys2 k hk with hh | hh
      · exact hkeys1 k hh
      · exact Or.inr (by omega)
    · intro x hx
      rcases hmm2 x hx with hh | hh | hh
      · exact hmm1 x hh
      · rcases hkeys1 x hh with hh2 | hh2
        · exact Or.inr (Or.inl hh2)
        · exact Or.inr (Or.inr hh2)
      · exact Or.inr (Or.inr (by omega))

lemma tracker_update_wf (st : TrackerState) (dets : List Box) (frame : Nat)
    (hwf : tracker_wf st) :
    tracker_wf (tracker_update st dets frame).1 ∧
    st.next_id ≤ (tracker_update st dets frame).1.next_id ∧
    (tracker_update st dets frame).1.max_disappeared = st.max_disappeared ∧
    (tracker_update st dets frame).1.iou_threshold = st.iou_threshold := by
  by_cases hd : dets = []
  · subst hd
    simp only [tracker_update, if_pos rfl]
    refine ⟨⟨?_, ?_⟩, le_refl _, rfl, rfl⟩
    · exact age_unmatched_keys_nodup _ _ _ hwf.1
    · intro entry he
      have hk := age_unmatched_keys_subset st.max_disappeared [] st.tracks entry.1
        (List.mem_map_of_mem _ he)
      obtain ⟨e2, he2, hek⟩ := List.mem_map.mp hk
      exact hek ▸ hwf.2 e2 he2
  · simp only [tracker_update, if_neg hd]
    obtain ⟨hwf1, hn1, hm1, hi1, -, -, -, -⟩ := process_fold_spec frame dets st [] [] hwf
    refine ⟨⟨?_, ?_⟩, hn1, hm1, hi1⟩
    · exact age_unmatched_keys_nodup _ _ _ hwf1.1
    · intro entry he
      have hk := age_unmatched_keys_subset _ _ _ entry.1 (List.mem_map_of_mem _ he)
      obtain ⟨e2, he2, hek⟩ := List.mem_map.mp hk
      exact hek ▸ hwf1.2 e2 he2

lemma tracker_update_get_unmatched (st : TrackerState) (dets : List Box) (frame t : Nat)
    (hwf : tracker_wf st) (ht : t < st.next_id)
    (hm : t ∉ update_matched st dets frame) :
    dict_get (tracker_update st dets frame).1.tracks t =
      match dict_get st.tracks t with
      | none => none
      | some tr =>
        if st.max_disappeared < tr.disappeared + 1 then none
        else some { tr with disappeared := tr.disappeared + 1 } := by
  by_cases hd : dets = []
  · subst hd
    simp only [tracker_update, if_true]
    rw [dict_get_age _ _ _ _ hwf.1, if_neg (List.not_mem_nil t)]
  · simp only [tracker_update, if_neg hd]
    rw [update_matched, if_neg hd] at hm
    obtain ⟨hwf1, -, hm1, -, -, hget1, -, -⟩ := process_fold_spec frame dets st [] [] hwf
    rw [dict_get_age _ _ _ _ hwf1.1, if_neg hm, hget1 t hm ht, hm1]

lemma update_matched_mem (st : TrackerState) (dets : List Box) (frame x : Nat)
    (hwf : tracker_wf st) (hx : x ∈ update_matched st dets frame) :
    x ∈ st.tracks.map Prod.fst ∨ st.next_id ≤ x := by
  rw [update_matched] at hx
  by_cases hd : dets = []
  · rw [if_pos hd] at hx
    cases hx
  · rw [if_neg hd] at hx
    obtain ⟨-, -, -, -, -, -, -, hmm⟩ := process_fold_spec frame dets st [] [] hwf
    rcases hmm x hx with hh | hh | hh
    · cases hh
    · exact Or.inl hh
    · exact Or.inr hh

lemma run_calls_absent : ∀ (calls : List (List Box × Nat)) (st : TrackerState) (t : Nat),
    tracker_wf st → t < st.next_id → dict_get st.tracks t = none →
    tracker_wf (run_calls st calls) ∧ t < (run_calls st calls).next_id ∧
    dict_get (run_calls st calls).tracks t = none := by
  intro calls
  induction calls with
  | nil => intro st t hwf ht hget; exact ⟨hwf, ht, hget⟩
  | cons c rest ih =>
    intro st t hwf ht hget
    rw [run_calls]
    have hnm : t ∉ update_matched st c.1 c.2 := by
      intro hc
      rcases update_matched_mem st c.1 c.2 t hwf hc with hh | hh
      · rw [dict_get_eq_none_iff] at hget
        exact hget hh
      · omega
    have hget1 : dict_get (tracker_update st c.1 c.2).1.tracks t = none := by
      rw [tracker_update_get_unmatched st c.1 c.2 t hwf ht hnm]
      simp only [hget]
    obtain ⟨hwf1, hn1, -, -⟩ := tracker_update_wf st c.1 c.2 hwf
    exact ih (tracker_update st c.1 c.2).1 t hwf1 (by omega) hget1

lemma unmatched_run_removes :
    ∀ (calls : List (List Box × Nat)) (st : TrackerState) (t d0 : Nat),
      tracker_wf st → t < st.next_id →
      unmatched_run t st calls = true →
      (∀ tr, dict_get st.tracks t = some tr → d0 ≤ tr.disappeared) →
      dict_get (run_calls st calls).tracks t = none ∨
        ∃ tr, dict_get (run_calls st calls).tracks t = some tr ∧
          d0 + calls.length ≤ tr.disappeared ∧
          (1 ≤ calls.length → tr.disappeared ≤ st.max_disappeared) := by
  intro calls
  induction calls with
  | nil =>
    intro st t d0 hwf ht hrun hd0
    cases hget : dict_get st.tracks t with
    | none => exact Or.inl hget
    | some tr =>
      refine Or.inr ⟨tr, hget, ?_, ?_⟩
      · have := hd0 tr hget
        simpa using this
      · intro hc
        simp at hc
  | cons c rest ih =>
    intro st t d0 hwf ht hrun hd0
    rw [unmatched_run, Bool.and_eq_true] at hrun
    have hnm : t ∉ update_matched st c.1 c.2 := by
      have := hrun.1
      simp only [Bool.not_eq_true', decide_eq_false_iff_not] at this
      exact this
    have hrest := hrun.2
    obtain ⟨hwf1, hn1, hmax1, -⟩ := tracker_update_wf st c.1 c.2 hwf
    rw [run_calls]
    cases hget : dict_get st.tracks t with
    | none =>
      have hget1 : dict_get (tracker_update st c.1 c.2).1.tracks t = none := by
        rw [tracker_update_get_unmatched st c.1 c.2 t hwf ht hnm]
        simp only [hget]
      exact Or.inl (run_calls_absent rest (tracker_update st c.1 c.2).1 t hwf1
        (by omega) hget1).2.2
    | some tr =>
      have hd0tr : d0 ≤ tr.disappeared := hd0 tr hget
      by_cases hdel : st.max_disappeared < tr.disappeared + 1
      · have hget1 : dict_get (tracker_update st c.1 c.2).1.tracks t = none := by
          rw [tracker_update_get_unmatched st c.1 c.2 t hwf ht hnm]
          simp [hget, hdel]
        exact Or.inl (run_calls_absent rest (tracker_update st c.1 c.2).1 t hwf1
          (by omega) hget1).2.2
      · have hget1 : dict_get (tracker_update st c.1 c.2).1.tracks t =
            some { tr with disappeared := tr.disappeared + 1 } := by
          rw [tracker_update_get_unmatched st c.1 c.2 t hwf ht hnm]
          simp [hget, hdel]
        have hd1 : ∀ tr2, dict_get (tracker_update st c.1 c.2).1.tracks t = some tr2 →
            d0 + 1 ≤ tr2.disappeared := by
          intro tr2 h2
          rw [hget1] at h2
          cases h2
          simp only []
          omega
        rcases ih (tracker_update st c.1 c.2).1 t (d0 + 1) hwf1 (by omega) hrest hd1 with
          hleft | ⟨tr2, hget2, hle2, hbound2⟩
        · exact Or.inl hleft
        · refine Or.inr ⟨tr2, hget2, by simp only [List.length_cons]; omega, ?_⟩
          intro _
          rcases Nat.eq_zero_or_pos rest.length with hz | hpos
          · have hrest_nil : rest = [] := List.length_eq_zero.mp hz
            rw [hrest_nil, run_calls] at hget2
            rw [hget1] at hget2
            cases hget2
            simp only []
            omega
          · rw [← hmax1]
            exact hbound2 hpos

lemma process_single_match (frame : Nat) (st : TrackerState) (d : Box) (t : Nat) (tr : Track)
    (hwf : tracker_wf st) (hθ : 0 < st.iou_threshold)
    (hget : dict_get st.tracks t = some tr)
    (hiou : st.iou_threshold ≤ calculate_iou d tr.bbox)
    (hothers : ∀ e ∈ st.tracks, e.1 ≠ t → calculate_iou d e.2.bbox < st.iou_threshold) :
    (tracker_update st [d] frame).2 = [t] ∧
    dict_get (tracker_update st [d] frame).1.tracks t =
      some { tr with
             bbox := d, last_seen := frame, disappeared := 0,
             detection_count := tr.detection_count + 1 } := by
  have hfind : find_best_match st.tracks [] st.iou_threshold d = some (t, tr) :=
    find_best_match_unique st.iou_threshold d [] hθ st.tracks t tr hwf.1 hget hiou hothers
      (List.not_mem_nil t)
  have hd : ([d] : List Box) ≠ [] := by simp
  have hnodup2 : ((dict_set st.tracks t
      { tr with
        bbox := d, last_seen := frame, disappeared := 0,
        detection_count := tr.detection_count + 1 }).map Prod.fst).Nodup := by
    rw [dict_set_keys_of_mem _ _ _ (dict_get_some_mem_keys _ _ _ hget)]
    exact hwf.1
  simp only [tracker_update, if_neg hd, List.foldl_cons, List.foldl_nil,
    process_detection, hfind]
  constructor
  · simp
  · rw [dict_get_age st.max_disappeared [t] _ t hnodup2,
      if_pos (List.mem_singleton.mpr rfl)]
    exact dict_get_set_self st.tracks t _

lemma unique_match_run_keeps :
    ∀ (calls : List (Box × Nat)) (st : TrackerState) (t : Nat),
      tracker_wf st → 0 < st.iou_threshold →
      unique_match_run t st calls = true →
      run_single_outputs st calls = calls.map (fun _ => [t]) ∧
      (calls ≠ [] → ∃ tr, dict_get (run_single st calls).tracks t = some tr ∧
        tr.disappeared = 0) := by
  intro calls
  induction calls with
  | nil =>
    intro st t hwf hθ hrun
    exact ⟨rfl, fun hc => absurd rfl hc⟩
  | cons c rest ih =>
    intro st t hwf hθ hrun
    rw [unique_match_run, Bool.and_eq_true, Bool.and_eq_true] at hrun
    obtain ⟨⟨hmatch, hall⟩, hrest⟩ := hrun
    cases hget : dict_get st.tracks t with
    | none =>
      simp only [hget] at hmatch
      cases hmatch
    | some tr =>
      simp only [hget, decide_eq_true_eq] at hmatch
      have hothers : ∀ e ∈ st.tracks, e.1 ≠ t →
          calculate_iou c.1 e.2.bbox < st.iou_threshold := by
        intro e he hne
        have hthis := List.all_eq_true.mp hall e he
        simp only [Bool.or_eq_true, beq_iff_eq, decide_eq_true_eq] at hthis
        rcases hthis with hh | hh
        · exact absurd hh hne
        · exact hh
      obtain ⟨hout, hget2⟩ := process_single_match c.2 st c.1 t tr hwf hθ hget hmatch hothers
      obtain ⟨hwf1, -, -, hi1⟩ := tracker_update_wf st [c.1] c.2 hwf
      have hθ1 : 0 < (tracker_update st [c.1] c.2).1.iou_threshold := by
        rw [hi1]
        exact hθ
      obtain ⟨ihout, ihfinal⟩ := ih (tracker_update st [c.1] c.2).1 t hwf1 hθ1 hrest
      constructor
      · rw [run_single_outputs, hout, ihout, List.map_cons]
      · intro _
        by_cases hre : rest = []
        · subst hre
          refine ⟨{ tr with
              bbox := c.1, last_seen := c.2, disappeared := 0,
              detection_count := tr.detection_count + 1 }, ?_, rfl⟩
          rw [run_single, run_single]
          exact hget2
        · rw [run_single]
          exact ihfinal hre

/-- C8: tracker lifecycle.  First conjunct (identity retention): over
any sequence of single-detection update calls in which, at each call,
the detection overlaps track t of the current state with IoU at least
iou_threshold and no other track reaches the threshold, every call
returns exactly track id t, and after the calls track t is present
with its disappeared counter reset to 0.  Second conjunct (removal):
an existing track that goes unmatched on M >= max_disappeared + 1
consecutive update calls (arbitrary detection lists) is removed from
the track dictionary. -/
theorem c8_tracker_lifecycle :
    (∀ (t : Nat) (st : TrackerState) (calls : List (Box × Nat)),
      tracker_wf st → 0 < st.iou_threshold →
      unique_match_run t st calls = true →
      run_single_outputs st calls = calls.map (fun _ => [t]) ∧
      (calls ≠ [] → ∃ tr, dict_get (run_single st calls).tracks t = some tr ∧
        tr.disappeared = 0)) ∧
    (∀ (t : Nat) (st : TrackerState) (calls : List (List Box × Nat)) (tr0 : Track),
      tracker_wf st →
      dict_get st.tracks t = some tr0 →
      unmatched_run t st calls = true →
      st.max_disappeared + 1 ≤ calls.length →
      dict_get (run_calls st calls).tracks t = none) := by
  constructor
  · intro t st calls hwf hθ hrun
    exact unique_match_run_keeps calls st t hwf hθ hrun
  · intro t st calls tr0 hwf hget hrun hlen
    have ht : t < st.next_id := by
      obtain ⟨e, he, hek⟩ := List.mem_map.mp (dict_get_some_mem_keys _ _ _ hget)
      exact hek ▸ hwf.2 e he
    rcases unmatched_run_removes calls st t 0 hwf ht hrun
        (fun tr htr => Nat.zero_le _) with hnone | ⟨tr, hgetf, hle, hbound⟩
    · exact hnone
    · have hb := hbound (by omega)
      omega

/-- Witness for C8: a tracker holding track 1 on the unit box with
threshold 3/10 keeps id 1 through a matching single-detection call,
and loses track 1 after 6 = max_disappeared + 1 empty update calls. -/
theorem c8_tracker_lifecycle_witness :
    run_single_outputs
      ({ max_disappeared := 5, iou_threshold := 3/10,
         tracks := [(1, { bbox := { x1 := 0, y1 := 0, x2 := 1, y2 := 1 },
                          first_seen := 0, last_seen := 0, disappeared := 0,
                          detection_count := 1 })],
         next_id := 2 } : TrackerState)
      [({ x1 := 0, y1 := 0, x2 := 1, y2 := 1 }, 10)] =
      [(({ x1 := 0, y1 := 0, x2 := 1, y2 := 1 } : Box), 10)].map (fun _ => [1]) ∧
    dict_get (run_calls
      ({ max_disappeared := 5, iou_threshold := 3/10,
         tracks := [(1, { bbox := { x1 := 0, y1 := 0, x2 := 1, y2 := 1 },
                          first_seen := 0, last_seen := 0, disappeared := 0,
                          detection_count := 1 })],
         next_id := 2 } : TrackerState)
      [([], 0), ([], 1), ([], 2), ([], 3), ([], 4), ([], 5)]).tracks 1 = none := by
  have hiou : calculate_iou { x1 := 0, y1 := 0, x2 := 1, y2 := 1 }
      { x1 := 0, y1 := 0, x2 := 1, y2 := 1 } = 1 := by
    norm_num [calculate_iou]
  have humr : unique_match_run 1
      ({ max_disappeared := 5, iou_threshold := 3/10,
         tracks := [(1, { bbox := { x1 := 0, y1 := 0, x2 := 1, y2 := 1 },
                          first_seen := 0, last_seen := 0, disappeared := 0,
                          detection_count := 1 })],
         next_id := 2 } : TrackerState)
      [({ x1 := 0, y1 := 0, x2 := 1, y2 := 1 }, 10)] = true := by
    rw [unique_match_run, unique_match_run]
    simp only [dict_get, if_true, List.all_cons, List.all_nil, Bool.and_true,
      Bool.and_eq_true, decide_eq_true_eq, Bool.or_eq_true, beq_iff_eq, hiou]
    norm_num
  constructor
  · exact (c8_tracker_lifecycle.1 1
      ({ max_disappeared := 5, iou_threshold := 3/10,
         tracks := [(1, { bbox := { x1 := 0, y1 := 0, x2 := 1, y2 := 1 },
                          first_seen := 0, last_seen := 0, disappeared := 0,
                          detection_count := 1 })],
         next_id := 2 } : TrackerState)
      [({ x1 := 0, y1 := 0, x2 := 1, y2 := 1 }, 10)]
      (by decide) (show (0:ℚ) < 3/10 by norm_num) humr).1
  · exact c8_tracker_lifecycle.2 1
      ({ max_disappeared := 5, iou_threshold := 3/10,
         tracks := [(1, { bbox := { x1 := 0, y1 := 0, x2 := 1, y2 := 1 },
                          first_seen := 0, last_seen := 0, disappeared := 0,
                          detection_count := 1 })],
         next_id := 2 } : TrackerState)
      [([], 0), ([], 1), ([], 2), ([], 3), ([], 4), ([], 5)]
      ({ bbox := { x1 := 0, y1 := 0, x2 := 1, y2 := 1 },
         first_seen := 0, last_seen := 0, disappeared := 0,
         detection_count := 1 } : Track)
      (by decide) rfl (by decide) (by decide)

end WorkplaceMonitoring
